import Mathlib

/-!
# pwm-sunxi-opi0: register-level model of the Orange Pi Zero PWM driver

A shallow embedding of `pwm-sunxi-opi0.c`.  Machine words are natural numbers
reduced modulo the width of the C object that holds them.  Bit-fields are laid
out from the least significant bit in declaration order, as the driver's own
comments on `struct h2plus_pwm_ctrl` assume (bits 10-14 unused, and so on).

Memory-mapped accesses are recorded in a trace, oldest access first.  What the
hardware answers to a read of the control register is an input of the model.
Messages sent to the kernel log by `printk` and the registration of the device
class are left out; an attribute text scanned by `sscanf` enters as the outcome
of the scan.
-/

namespace PwmSunxi

/-! ## Register addresses -/

/-- PORT A pin control register. -/
def PA_CFG0_REG : Nat := 0x01c20800

/-- PORT A pullup control register. -/
def PA_PULL0_REG : Nat := PA_CFG0_REG + 0x01c

/-- PWM control register. -/
def PWM_CTRL_REG : Nat := 0x01c21400

/-- Period register of pwm0. -/
def PWM_CH0_PERIOD : Nat := PWM_CTRL_REG + 0x04

/-- Period register of pwm1. -/
def PWM_CH1_PERIOD : Nat := PWM_CTRL_REG + 0x08

/-- Errno value returned (negated) by a rejected store. -/
def EINVAL : Int := 22

/-! ## Bit-fields -/

/-- Read of a bit-field of `width` bits that starts at bit `off` of `word`. -/
def getBits (word off width : Nat) : Nat :=
  word / 2 ^ off % 2 ^ width

/-- Assignment to a bit-field: the `width` bits of `word` from bit `off` are
replaced by the low `width` bits of `val`, every other bit is kept. -/
def setBits (word off width val : Nat) : Nat :=
  word % 2 ^ off + (val % 2 ^ width) * 2 ^ off
    + word / 2 ^ (off + width) * 2 ^ (off + width)

/-! ## The prescaler table -/

/-- Prescaler code PRESCALE_DIV240 of `enum h2plus_pwm_prescale`. -/
def PRESCALE_DIV240 : Nat := 0x02

/-- Prescaler code PRESCALE_DIV120, the smallest code. -/
def PRESCALE_DIV120 : Nat := 0x00

/-- Prescaler code PRESCALE_DIV_NO, the largest code. -/
def PRESCALE_DIV_NO : Nat := 0x0f

/-- The table `clock_divider[]` of `__u32`; an initialiser `-1` is stored as
`4294967295`. -/
def clock_divider : List Nat :=
  [120, 180, 240, 360, 480, 4294967295, 4294967295, 4294967295,
   12000, 24000, 36000, 48000, 72000, 4294967295, 4294967295, 1]

/-! ## Channel state -/

/-- One element of `static struct pwm_channel channel[2]`.  The union `cycles`
is kept as its 32-bit word (`cycles.initializer`). -/
structure pwm_channel where
  channel : Nat
  use_count : Nat
  prescale : Nat
  enable : Nat
  polarity : Nat
  gating : Nat
  mode : Nat
  pulse_start : Nat
  bypass : Nat
  period_reg_addr : Nat
  cycles : Nat
  deriving DecidableEq

/-- Field `cycles.s.active_cycles` (bits 0..15). -/
def pwm_channel.active_cycles (c : pwm_channel) : Nat := getBits c.cycles 0 16

/-- Field `cycles.s.entire_cycles` (bits 16..31). -/
def pwm_channel.entire_cycles (c : pwm_channel) : Nat := getBits c.cycles 16 16

/-- One memory-mapped access. -/
inductive Access where
  | ioread32 (addr val : Nat)
  | iowrite32 (val addr : Nat)
  deriving DecidableEq

/-- The module's global data: the two channels and the accesses made so far. -/
structure Module where
  channel0 : pwm_channel
  channel1 : pwm_channel
  trace : List Access
  deriving DecidableEq

/-- The channel a device's driver data points to. -/
def Module.chan (m : Module) (dev : Fin 2) : pwm_channel :=
  if dev = 0 then m.channel0 else m.channel1

/-- Replace the channel a device's driver data points to. -/
def Module.setChan (m : Module) (dev : Fin 2) (c : pwm_channel) : Module :=
  if dev = 0 then { m with channel0 := c } else { m with channel1 := c }

/-- Append one access to the trace. -/
def Module.emit (m : Module) (a : Access) : Module :=
  { m with trace := m.trace ++ [a] }

/-! ## The control register -/

/-- The word `update_ctrl_reg` writes.  `stack` is the content of the local
`union h2plus_pwm_ctrl_u ctrl` on entry: the function declares it without an
initialiser and then assigns fourteen of its bit-fields, in this order. -/
def ctrl_image (stack : Nat) (ch0 ch1 : pwm_channel) : Nat :=
  let ctrl := stack % 2 ^ 32
  let ctrl := setBits ctrl 0 4 ch0.prescale
  let ctrl := setBits ctrl 4 1 ch0.enable
  let ctrl := setBits ctrl 5 1 ch0.polarity
  let ctrl := setBits ctrl 6 1 ch0.gating
  let ctrl := setBits ctrl 7 1 ch0.mode
  let ctrl := setBits ctrl 8 1 ch0.pulse_start
  let ctrl := setBits ctrl 9 1 ch0.bypass
  let ctrl := setBits ctrl 15 4 ch1.prescale
  let ctrl := setBits ctrl 19 1 ch1.enable
  let ctrl := setBits ctrl 20 1 ch1.polarity
  let ctrl := setBits ctrl 21 1 ch1.gating
  let ctrl := setBits ctrl 22 1 ch1.mode
  let ctrl := setBits ctrl 23 1 ch1.pulse_start
  let ctrl := setBits ctrl 24 1 ch1.bypass
  ctrl

/-- Function `update_ctrl_reg`: pack both channels and write the control
register. -/
def update_ctrl_reg (stack : Nat) (m : Module) : Int × Module :=
  (0, m.emit (.iowrite32 (ctrl_image stack m.channel0 m.channel1) PWM_CTRL_REG))

/-- Function `pwm_enable`: store the enable value and the driver's defaults in
the channel, then rewrite the control register.  The parameter is an
`unsigned int`; the field it is stored in is a `__u8`. -/
def pwm_enable (enable : Nat) (dev : Fin 2) (stack : Nat) (m : Module) : Int × Module :=
  let chan := m.chan dev
  let chan := { chan with enable := enable % 2 ^ 8 }
  let chan := { chan with polarity := 1 }
  let chan := { chan with gating := 1 }
  let chan := { chan with mode := 0 }
  let chan := { chan with prescale := PRESCALE_DIV240 }
  let m := m.setChan dev chan
  let m := (update_ctrl_reg stack m).2
  (1, m)

/-! ## Module load and unload -/

/-- A channel of the zero-initialised static array `channel[2]`. -/
def zero_channel : pwm_channel :=
  { channel := 0, use_count := 0, prescale := 0, enable := 0, polarity := 0,
    gating := 0, mode := 0, pulse_start := 0, bypass := 0, period_reg_addr := 0,
    cycles := 0 }

/-- Function `opi0_init` on its successful path (class and attribute groups
registered): the channels are numbered, the registers mapped, PA5 and PA6
switched to their PWM function and their pull-ups enabled.  `pa_cfg0` and
`pa_pull0` are what the two pin registers read as. -/
def opi0_init (pa_cfg0 pa_pull0 : Nat) : Module :=
  let channel0 := { zero_channel with channel := 0 }
  let channel1 := { zero_channel with channel := 1 }
  let channel0 := { channel0 with period_reg_addr := PWM_CH0_PERIOD }
  let channel1 := { channel1 with period_reg_addr := PWM_CH1_PERIOD }
  let m : Module := { channel0 := channel0, channel1 := channel1, trace := [] }
  let pin_ctrl := pa_cfg0 % 2 ^ 32
  let m := m.emit (.ioread32 PA_CFG0_REG pin_ctrl)
  let pin_ctrl := setBits pin_ctrl 20 3 0b011
  let pin_ctrl := setBits pin_ctrl 24 3 0b011
  let m := m.emit (.iowrite32 pin_ctrl PA_CFG0_REG)
  let pin_pullup := pa_pull0 % 2 ^ 32
  let m := m.emit (.ioread32 PA_PULL0_REG pin_pullup)
  let pin_pullup := pin_pullup ||| (1 <<< 10)
  let pin_pullup := pin_pullup &&& (0xffffffff ^^^ (1 <<< 11))
  let pin_pullup := pin_pullup ||| (1 <<< 12)
  let pin_pullup := pin_pullup &&& (0xffffffff ^^^ (1 <<< 13))
  m.emit (.iowrite32 pin_pullup PA_PULL0_REG)

/-- Function `opi0_exit`: stop both channels and rewrite the control
register. -/
def opi0_exit (stack : Nat) (m : Module) : Module :=
  let m := { m with channel0 := { m.channel0 with enable := 0 } }
  let m := { m with channel1 := { m.channel1 with enable := 0 } }
  (update_ctrl_reg stack m).2

/-! ## Attribute reads -/

/-- Function `pwm_run_show`: the text `"%u\n"` of the enable field. -/
def pwm_run_show (m : Module) (dev : Fin 2) : String :=
  toString (m.chan dev).enable ++ "\n"

/-- Function `pwm_polarity_show`. -/
def pwm_polarity_show (m : Module) (dev : Fin 2) : String :=
  toString (m.chan dev).polarity ++ "\n"

/-- Function `pwm_prescale_show`. -/
def pwm_prescale_show (m : Module) (dev : Fin 2) : String :=
  toString (m.chan dev).prescale ++ "\n"

/-- Function `pwm_entirecycles_show`. -/
def pwm_entirecycles_show (m : Module) (dev : Fin 2) : String :=
  toString (m.chan dev).entire_cycles ++ "\n"

/-- Function `pwm_activecycles_show`. -/
def pwm_activecycles_show (m : Module) (dev : Fin 2) : String :=
  toString (m.chan dev).active_cycles ++ "\n"

/-- The number `pwm_freq` that `pwm_freqperiod_show` prints.  There is no
result when the table is indexed past its end or a divisor is zero; both
divisions are `unsigned int` divisions. -/
def pwm_freq (chan : pwm_channel) : Option Nat :=
  match clock_divider[chan.prescale]? with
  | none => none
  | some divider =>
    if divider = 0 then none
    else
      let clk_freq := 24000000 / divider
      let cycles := (chan.entire_cycles + 1) % 2 ^ 32
      if cycles = 0 then none else some (clk_freq / cycles)

/-- Function `pwm_freqperiod_show`: the text `"%uhz\n"` of `pwm_freq`. -/
def pwm_freqperiod_show (m : Module) (dev : Fin 2) : Option String :=
  (pwm_freq (m.chan dev)).map fun pwm_freq => toString pwm_freq ++ "hz\n"

/-! ## Attribute writes

The text handed to a store is scanned by `sscanf`; the model takes the outcome
of the scan: `none` when no number was converted, `some v` when `v` was. -/

/-- Function `pwm_run_store`; the scanned value is an `int`. -/
def pwm_run_store (dev : Fin 2) (parsed : Option Int) (size : Nat) (stack : Nat)
    (m : Module) : Int × Module :=
  match parsed with
  | none => (-EINVAL, m)
  | some enable =>
    if enable < 2 then
      let r := pwm_enable (enable % 2 ^ 32).toNat dev stack m
      if r.1 ≠ 0 then (size, r.2) else (-EINVAL, r.2)
    else (-EINVAL, m)

/-- Function `pwm_polarity_store`; the scanned value is an `unsigned char`. -/
def pwm_polarity_store (dev : Fin 2) (parsed : Option Nat) (size : Nat) (stack : Nat)
    (m : Module) : Int × Module :=
  match parsed with
  | none => (-EINVAL, m)
  | some polarity =>
    let polarity := polarity % 2 ^ 8
    let chan := m.chan dev
    let chan := if polarity > 0 then { chan with polarity := 1 } else { chan with polarity := 0 }
    let m := m.setChan dev chan
    let m := (update_ctrl_reg stack m).2
    (size, m)

/-- Function `pwm_prescale_store`; the scanned value is an `unsigned char`. -/
def pwm_prescale_store (dev : Fin 2) (parsed : Option Nat) (size : Nat) (stack : Nat)
    (m : Module) : Int × Module :=
  match parsed with
  | none => (-EINVAL, m)
  | some prescale =>
    let prescale := prescale % 2 ^ 8
    if prescale ≥ PRESCALE_DIV120 ∧ prescale ≤ PRESCALE_DIV_NO then
      let chan := m.chan dev
      let chan := { chan with prescale := prescale }
      let m := m.setChan dev chan
      let m := (update_ctrl_reg stack m).2
      (size, m)
    else (-EINVAL, m)

/-- The ready bit a channel polls: `pwm0_rdy` (bit 28) when its number is 0,
`pwm1_rdy` (bit 29) otherwise. -/
def rdy (channel ctrl_reg : Nat) : Nat :=
  if channel = 0 then getBits ctrl_reg 28 1 else getBits ctrl_reg 29 1

/-- The loop `do ctrl_reg = ioread32 (ctrl_reg_addr); while (rdy)`.  `reads`
holds what the control register answers to the successive reads; the loop has
not ended when they are used up, and then there is no result. -/
def wait_ready (channel : Nat) : List Nat → Module → Option (Module × List Nat)
  | [], _ => none
  | ctrl_reg :: reads, m =>
    let m := m.emit (.ioread32 PWM_CTRL_REG ctrl_reg)
    if rdy channel ctrl_reg ≠ 0 then wait_ready channel reads m else some (m, reads)

/-- Function `pwm_entirecycles_store`; the scanned value is a `__u16`. -/
def pwm_entirecycles_store (dev : Fin 2) (parsed : Option Nat) (size : Nat)
    (reads : List Nat) (m : Module) : Option (Int × Module × List Nat) :=
  match parsed with
  | none => some (-EINVAL, m, reads)
  | some entirecycles =>
    let entirecycles := entirecycles % 2 ^ 16
    let chan := m.chan dev
    let chan := { chan with cycles := setBits chan.cycles 16 16 entirecycles }
    let m := m.setChan dev chan
    match wait_ready chan.channel reads m with
    | none => none
    | some (m, reads) =>
      some (size, m.emit (.iowrite32 chan.cycles chan.period_reg_addr), reads)

/-- Function `pwm_activecycles_store`; the scanned value is a `__u16`. -/
def pwm_activecycles_store (dev : Fin 2) (parsed : Option Nat) (size : Nat)
    (reads : List Nat) (m : Module) : Option (Int × Module × List Nat) :=
  match parsed with
  | none => some (-EINVAL, m, reads)
  | some activecycles =>
    let activecycles := activecycles % 2 ^ 16
    let chan := m.chan dev
    let chan := { chan with cycles := setBits chan.cycles 0 16 activecycles }
    let m := m.setChan dev chan
    match wait_ready chan.channel reads m with
    | none => none
    | some (m, reads) =>
      some (size, m.emit (.iowrite32 chan.cycles chan.period_reg_addr), reads)

/-- Function `pwm_freqperiod_store`: the attribute cannot be written. -/
def pwm_freqperiod_store (_dev : Fin 2) (_size : Nat) (m : Module) : Int × Module :=
  (-EINVAL, m)

/-- The channels are numbered and mapped as `opi0_init` leaves them. -/
def Module.Mapped (m : Module) : Prop :=
  m.channel0.channel = 0 ∧ m.channel0.period_reg_addr = PWM_CH0_PERIOD ∧
  m.channel1.channel = 1 ∧ m.channel1.period_reg_addr = PWM_CH1_PERIOD

instance (m : Module) : Decidable m.Mapped := by
  unfold Module.Mapped
  infer_instance

/-- The period register of a channel. -/
def period_reg (dev : Fin 2) : Nat :=
  if dev = 0 then PWM_CH0_PERIOD else PWM_CH1_PERIOD

/-! ## The diagnostic read -/

/-- The bit-fields of `struct h2plus_pwm_ctrl`, in declaration order. -/
structure h2plus_pwm_ctrl where
  pwm_ch0_prescal : Nat
  pwm_ch0_en : Nat
  pwm_ch0_act_sta : Nat
  sclk_ch0_gating : Nat
  pwm_ch0_mode : Nat
  pwm_ch0_pul_start : Nat
  pwm0_bypass : Nat
  unused1 : Nat
  pwm_ch1_prescal : Nat
  pwm_ch1_en : Nat
  pwm_ch1_act_sta : Nat
  sclk_ch1_gating : Nat
  pwm_ch1_mode : Nat
  pwm_ch1_pul_start : Nat
  pwm1_bypass : Nat
  unused2 : Nat
  pwm0_rdy : Nat
  pwm1_rdy : Nat
  unused3 : Nat
  deriving DecidableEq

/-- The member `s` of a `union h2plus_pwm_ctrl_u` whose member `initializer`
holds the given word. -/
def h2plus_pwm_ctrl_u (initializer : Nat) : h2plus_pwm_ctrl :=
  { pwm_ch0_prescal := getBits initializer 0 4
    pwm_ch0_en := getBits initializer 4 1
    pwm_ch0_act_sta := getBits initializer 5 1
    sclk_ch0_gating := getBits initializer 6 1
    pwm_ch0_mode := getBits initializer 7 1
    pwm_ch0_pul_start := getBits initializer 8 1
    pwm0_bypass := getBits initializer 9 1
    unused1 := getBits initializer 10 5
    pwm_ch1_prescal := getBits initializer 15 4
    pwm_ch1_en := getBits initializer 19 1
    pwm_ch1_act_sta := getBits initializer 20 1
    sclk_ch1_gating := getBits initializer 21 1
    pwm_ch1_mode := getBits initializer 22 1
    pwm_ch1_pul_start := getBits initializer 23 1
    pwm1_bypass := getBits initializer 24 1
    unused2 := getBits initializer 25 3
    pwm0_rdy := getBits initializer 28 1
    pwm1_rdy := getBits initializer 29 1
    unused3 := getBits initializer 30 2 }

/-- The values `pwm_hardware_show` hands to `sprintf`, in the order of the
format. -/
structure hardware_report where
  pin_ctrl : Nat
  PA5_SELECT : Nat
  PA6_SELECT : Nat
  pwm_ctrl : Nat
  pwm_ch0_prescal : Nat
  pwm_ch0_en : Nat
  pwm_ch0_act_sta : Nat
  sclk_ch0_gating : Nat
  pwm_ch0_mode : Nat
  pwm0_bypass : Nat
  pwm_ch1_prescal : Nat
  pwm_ch1_en : Nat
  pwm_ch1_act_sta : Nat
  sclk_ch1_gating : Nat
  pwm_ch1_mode : Nat
  pwm1_bypass : Nat
  pwm0_entire_cycles : Nat
  pwm0_active_cycles : Nat
  pwm1_entire_cycles : Nat
  pwm1_active_cycles : Nat
  deriving DecidableEq

/-- Function `pwm_hardware_show`: read the pin register, the control register
and the two period registers (answering `pa_cfg0`, `ctrl`, `period0` and
`period1`) and report their fields.  The channels are not touched. -/
def pwm_hardware_show (pa_cfg0 ctrl period0 period1 : Nat) (m : Module) :
    hardware_report × Module :=
  let pin_ctrl := pa_cfg0 % 2 ^ 32
  let m := m.emit (.ioread32 PA_CFG0_REG pin_ctrl)
  let pwm_ctrl := ctrl % 2 ^ 32
  let m := m.emit (.ioread32 PWM_CTRL_REG pwm_ctrl)
  let pwm0_period_reg := period0 % 2 ^ 32
  let m := m.emit (.ioread32 m.channel0.period_reg_addr pwm0_period_reg)
  let pwm1_period_reg := period1 % 2 ^ 32
  let m := m.emit (.ioread32 m.channel1.period_reg_addr pwm1_period_reg)
  ({ pin_ctrl := pin_ctrl
     PA5_SELECT := getBits pin_ctrl 20 3
     PA6_SELECT := getBits pin_ctrl 24 3
     pwm_ctrl := pwm_ctrl
     pwm_ch0_prescal := (h2plus_pwm_ctrl_u pwm_ctrl).pwm_ch0_prescal
     pwm_ch0_en := (h2plus_pwm_ctrl_u pwm_ctrl).pwm_ch0_en
     pwm_ch0_act_sta := (h2plus_pwm_ctrl_u pwm_ctrl).pwm_ch0_act_sta
     sclk_ch0_gating := (h2plus_pwm_ctrl_u pwm_ctrl).sclk_ch0_gating
     pwm_ch0_mode := (h2plus_pwm_ctrl_u pwm_ctrl).pwm_ch0_mode
     pwm0_bypass := (h2plus_pwm_ctrl_u pwm_ctrl).pwm0_bypass
     pwm_ch1_prescal := (h2plus_pwm_ctrl_u pwm_ctrl).pwm_ch1_prescal
     pwm_ch1_en := (h2plus_pwm_ctrl_u pwm_ctrl).pwm_ch1_en
     pwm_ch1_act_sta := (h2plus_pwm_ctrl_u pwm_ctrl).pwm_ch1_act_sta
     sclk_ch1_gating := (h2plus_pwm_ctrl_u pwm_ctrl).sclk_ch1_gating
     pwm_ch1_mode := (h2plus_pwm_ctrl_u pwm_ctrl).pwm_ch1_mode
     pwm1_bypass := (h2plus_pwm_ctrl_u pwm_ctrl).pwm1_bypass
     pwm0_entire_cycles := getBits pwm0_period_reg 16 16
     pwm0_active_cycles := getBits pwm0_period_reg 0 16
     pwm1_entire_cycles := getBits pwm1_period_reg 16 16
     pwm1_active_cycles := getBits pwm1_period_reg 0 16 }, m)

/-- A channel that holds the fields read for channel 0 from a control word. -/
def channel0_of_ctrl (s : h2plus_pwm_ctrl) : pwm_channel :=
  { zero_channel with
    prescale := s.pwm_ch0_prescal, enable := s.pwm_ch0_en, polarity := s.pwm_ch0_act_sta,
    gating := s.sclk_ch0_gating, mode := s.pwm_ch0_mode, pulse_start := s.pwm_ch0_pul_start,
    bypass := s.pwm0_bypass }

/-- A channel that holds the fields read for channel 1 from a control word. -/
def channel1_of_ctrl (s : h2plus_pwm_ctrl) : pwm_channel :=
  { zero_channel with
    prescale := s.pwm_ch1_prescal, enable := s.pwm_ch1_en, polarity := s.pwm_ch1_act_sta,
    gating := s.sclk_ch1_gating, mode := s.pwm_ch1_mode, pulse_start := s.pwm_ch1_pul_start,
    bypass := s.pwm1_bypass }

/-- Every control field of the channel fits the width of its bit-field. -/
def pwm_channel.Fits (c : pwm_channel) : Prop :=
  c.prescale < 16 ∧ c.enable < 2 ∧ c.polarity < 2 ∧ c.gating < 2 ∧ c.mode < 2 ∧
  c.pulse_start < 2 ∧ c.bypass < 2

instance (c : pwm_channel) : Decidable c.Fits := by
  unfold pwm_channel.Fits
  infer_instance

/-! ## Sequences of attribute writes -/

/-- The word of the latest write to the control register in a trace. -/
def last_ctrl_write (trace : List Access) : Option Nat :=
  trace.foldl
    (fun acc a =>
      match a with
      | .iowrite32 val addr => if addr = PWM_CTRL_REG then some val else acc
      | .ioread32 _ _ => acc)
    none

/-- The states the module passes through: the state `opi0_init` leaves, and
every state a store to one of the attributes or a read of the `hardware`
attribute leaves, whatever text was written and whatever the hardware
answered.  The other reads leave the state as it is. -/
inductive Reachable : Module → Prop
  | init (pa_cfg0 pa_pull0 : Nat) : Reachable (opi0_init pa_cfg0 pa_pull0)
  | run (m : Module) (dev : Fin 2) (parsed : Option Int) (size stack : Nat) :
      Reachable m → Reachable (pwm_run_store dev parsed size stack m).2
  | polarity (m : Module) (dev : Fin 2) (parsed : Option Nat) (size stack : Nat) :
      Reachable m → Reachable (pwm_polarity_store dev parsed size stack m).2
  | prescale (m : Module) (dev : Fin 2) (parsed : Option Nat) (size stack : Nat) :
      Reachable m → Reachable (pwm_prescale_store dev parsed size stack m).2
  | entirecycles (m : Module) (dev : Fin 2) (parsed : Option Nat) (size : Nat)
      (reads : List Nat) (r : Int × Module × List Nat) :
      Reachable m → pwm_entirecycles_store dev parsed size reads m = some r →
      Reachable r.2.1
  | activecycles (m : Module) (dev : Fin 2) (parsed : Option Nat) (size : Nat)
      (reads : List Nat) (r : Int × Module × List Nat) :
      Reachable m → pwm_activecycles_store dev parsed size reads m = some r →
      Reachable r.2.1
  | freqperiod (m : Module) (dev : Fin 2) (size : Nat) :
      Reachable m → Reachable (pwm_freqperiod_store dev size m).2
  | hardware (m : Module) (pa_cfg0 ctrl period0 period1 : Nat) :
      Reachable m → Reachable (pwm_hardware_show pa_cfg0 ctrl period0 period1 m).2

/-- The latest word written to the control register, if there is one, holds in
the ten bits of each channel what `update_ctrl_reg` would write for the
channel now. -/
def Module.Synced (m : Module) : Prop :=
  ∀ prev, last_ctrl_write m.trace = some prev →
    getBits prev 0 10 = getBits (ctrl_image 0 m.channel0 m.channel1) 0 10 ∧
    getBits prev 15 10 = getBits (ctrl_image 0 m.channel0 m.channel1) 15 10

/-- What every reachable state satisfies: the channels are numbered and mapped,
their prescale codes are table indices, and the latest control word agrees
with them. -/
def Module.Sound (m : Module) : Prop :=
  m.Mapped ∧ m.channel0.prescale < 16 ∧ m.channel1.prescale < 16 ∧ m.Synced

/-- The ten bits `update_ctrl_reg` assigns for one channel, counted from the
first bit of the channel's field: prescale code, enable, polarity, gating, mode,
pulse start and bypass, each cut to the width of its bit-field. -/
def ctrl_field (c : pwm_channel) : Nat :=
  c.prescale % 16 + 16 * (c.enable % 2) + 32 * (c.polarity % 2) + 64 * (c.gating % 2)
    + 128 * (c.mode % 2) + 256 * (c.pulse_start % 2) + 512 * (c.bypass % 2)

end PwmSunxi

/-! ## Bit-field arithmetic -/

namespace PwmSunxi

theorem setBits_eq (w o n v : Nat) :
    setBits w o n v = w % 2 ^ o + 2 ^ o * (v % 2 ^ n + 2 ^ n * (w / 2 ^ (o + n))) := by
  unfold setBits
  rw [pow_add]
  ring

/-- Reading the field that was just assigned gives the assigned value, cut to
the width of the field. -/
theorem getBits_setBits_same (w o n v : Nat) :
    getBits (setBits w o n v) o n = v % 2 ^ n := by
  rw [setBits_eq]
  unfold getBits
  have h : w % 2 ^ o < 2 ^ o := Nat.mod_lt _ (by positivity)
  rw [Nat.add_mul_div_left _ _ (by positivity : 0 < 2 ^ o), Nat.div_eq_of_lt h, Nat.zero_add,
    Nat.add_mul_mod_self_left, Nat.mod_mod]

theorem getBits_eq_mod (w o n : Nat) : getBits w o n = w % 2 ^ (o + n) / 2 ^ o := by
  unfold getBits
  rw [pow_add, Nat.mod_mul_right_div_self]

/-- An assignment leaves every field that ends below it unchanged. -/
theorem getBits_setBits_below (w o n v p k : Nat) (h : p + k ≤ o) :
    getBits (setBits w o n v) p k = getBits w p k := by
  rw [getBits_eq_mod, getBits_eq_mod, setBits_eq]
  obtain ⟨d, rfl⟩ := Nat.exists_eq_add_of_le h
  congr 1
  rw [pow_add 2 (p + k) d, Nat.mul_assoc, Nat.add_mul_mod_self_left, Nat.mod_mul_right_mod]

/-- An assignment leaves every field that starts above it unchanged. -/
theorem getBits_setBits_above (w o n v p k : Nat) (h : o + n ≤ p) :
    getBits (setBits w o n v) p k = getBits w p k := by
  unfold getBits
  obtain ⟨d, rfl⟩ := Nat.exists_eq_add_of_le h
  have key : setBits w o n v / 2 ^ (o + n) = w / 2 ^ (o + n) := by
    unfold setBits
    have h1 : w % 2 ^ o < 2 ^ o := Nat.mod_lt _ (by positivity)
    have h2 : v % 2 ^ n < 2 ^ n := Nat.mod_lt _ (by positivity)
    have h3 : w % 2 ^ o + v % 2 ^ n * 2 ^ o < 2 ^ (o + n) := by
      rw [pow_add]
      have h4 : (v % 2 ^ n + 1) * 2 ^ o ≤ 2 ^ n * 2 ^ o := Nat.mul_le_mul_right _ h2
      rw [Nat.add_mul, Nat.one_mul] at h4
      rw [Nat.mul_comm (2 ^ o) (2 ^ n)]
      omega
    rw [Nat.add_mul_div_right _ _ (by positivity : 0 < 2 ^ (o + n)), Nat.div_eq_of_lt h3,
      Nat.zero_add]
  rw [pow_add 2 (o + n) d, ← Nat.div_div_eq_div_mul, ← Nat.div_div_eq_div_mul, key]

/-- Cutting a word to 32 bits does not change a field inside those bits. -/
theorem getBits_mod_word (w p k : Nat) (h : p + k ≤ 32) :
    getBits (w % 4294967296) p k = getBits w p k := by
  have h32 : (4294967296 : Nat) = 2 ^ 32 := by norm_num
  rw [h32, getBits_eq_mod, getBits_eq_mod]
  obtain ⟨d, hd⟩ := Nat.exists_eq_add_of_le h
  rw [hd, pow_add 2 (p + k) d, Nat.mod_mul_right_mod]

theorem getBits_lt (w p k : Nat) : getBits w p k < 2 ^ k :=
  Nat.mod_lt _ (by positivity)

/-! ## The fields of the control word -/

theorem ctrl_image_ch0 (stack : Nat) (ch0 ch1 : pwm_channel) :
    getBits (ctrl_image stack ch0 ch1) 0 4 = ch0.prescale % 16 ∧
    getBits (ctrl_image stack ch0 ch1) 4 1 = ch0.enable % 2 ∧
    getBits (ctrl_image stack ch0 ch1) 5 1 = ch0.polarity % 2 ∧
    getBits (ctrl_image stack ch0 ch1) 6 1 = ch0.gating % 2 ∧
    getBits (ctrl_image stack ch0 ch1) 7 1 = ch0.mode % 2 ∧
    getBits (ctrl_image stack ch0 ch1) 8 1 = ch0.pulse_start % 2 ∧
    getBits (ctrl_image stack ch0 ch1) 9 1 = ch0.bypass % 2 := by
  simp [ctrl_image, getBits_setBits_same, getBits_setBits_below, getBits_setBits_above]

theorem ctrl_image_ch1 (stack : Nat) (ch0 ch1 : pwm_channel) :
    getBits (ctrl_image stack ch0 ch1) 15 4 = ch1.prescale % 16 ∧
    getBits (ctrl_image stack ch0 ch1) 19 1 = ch1.enable % 2 ∧
    getBits (ctrl_image stack ch0 ch1) 20 1 = ch1.polarity % 2 ∧
    getBits (ctrl_image stack ch0 ch1) 21 1 = ch1.gating % 2 ∧
    getBits (ctrl_image stack ch0 ch1) 22 1 = ch1.mode % 2 ∧
    getBits (ctrl_image stack ch0 ch1) 23 1 = ch1.pulse_start % 2 ∧
    getBits (ctrl_image stack ch0 ch1) 24 1 = ch1.bypass % 2 := by
  simp [ctrl_image, getBits_setBits_same, getBits_setBits_below, getBits_setBits_above]

/-- The fields `update_ctrl_reg` does not assign keep what the local held. -/
theorem ctrl_image_unassigned (stack : Nat) (ch0 ch1 : pwm_channel) :
    getBits (ctrl_image stack ch0 ch1) 10 5 = getBits stack 10 5 ∧
    getBits (ctrl_image stack ch0 ch1) 25 3 = getBits stack 25 3 ∧
    getBits (ctrl_image stack ch0 ch1) 28 1 = getBits stack 28 1 ∧
    getBits (ctrl_image stack ch0 ch1) 29 1 = getBits stack 29 1 ∧
    getBits (ctrl_image stack ch0 ch1) 30 2 = getBits stack 30 2 := by
  simp [ctrl_image, getBits_setBits_below, getBits_setBits_above, getBits_mod_word]

/-! ## Channel selection -/

theorem chan_setChan (m : Module) (dev : Fin 2) (c : pwm_channel) :
    (m.setChan dev c).chan dev = c := by
  fin_cases dev <;> simp [Module.chan, Module.setChan]

theorem chan_emit (m : Module) (dev : Fin 2) (a : Access) :
    (m.emit a).chan dev = m.chan dev := by
  simp [Module.chan, Module.emit]

theorem trace_setChan (m : Module) (dev : Fin 2) (c : pwm_channel) :
    (m.setChan dev c).trace = m.trace := by
  fin_cases dev <;> simp [Module.setChan]

theorem chan_update_ctrl_reg (stack : Nat) (m : Module) (dev : Fin 2) :
    (update_ctrl_reg stack m).2.chan dev = m.chan dev := by
  simp [update_ctrl_reg, chan_emit]

theorem trace_update_ctrl_reg (stack : Nat) (m : Module) :
    (update_ctrl_reg stack m).2.trace
      = m.trace ++ [.iowrite32 (ctrl_image stack m.channel0 m.channel1) PWM_CTRL_REG] := by
  simp [update_ctrl_reg, Module.emit]

/-- In a mapped module a channel polls its own ready bit and owns its own
period register. -/
theorem mapped_chan (m : Module) (h : m.Mapped) (dev : Fin 2) :
    (m.chan dev).channel = dev.val ∧ (m.chan dev).period_reg_addr = period_reg dev := by
  obtain ⟨h1, h2, h3, h4⟩ := h
  fin_cases dev <;> simp [Module.chan, period_reg, h1, h2, h3, h4]

theorem rdy_eq (dev : Fin 2) (x : Nat) : rdy dev.val x = getBits x (28 + dev.val) 1 := by
  fin_cases dev <;> simp [rdy]

/-! ## The polling loop -/

/-- The loop reads as long as the ready bit reads 1 and ends on the first read
on which it is 0; it writes nothing. -/
theorem wait_ready_busy_then_clear (channel : Nat) (busy : List Nat) (clear : Nat)
    (rest : List Nat) (m : Module)
    (hbusy : ∀ x ∈ busy, rdy channel x ≠ 0) (hclear : rdy channel clear = 0) :
    wait_ready channel (busy ++ clear :: rest) m
      = some ({ m with trace := m.trace ++ busy.map (.ioread32 PWM_CTRL_REG)
                  ++ [.ioread32 PWM_CTRL_REG clear] }, rest) := by
  induction busy generalizing m with
  | nil => simp [wait_ready, hclear, Module.emit]
  | cons x xs ih =>
    have hx : rdy channel x ≠ 0 := hbusy x (by simp)
    have hxs : ∀ y ∈ xs, rdy channel y ≠ 0 := fun y hy => hbusy y (by simp [hy])
    simp [wait_ready, hx, ih _ hxs, Module.emit]

/-- The loop has no result as long as every answer has the ready bit set. -/
theorem wait_ready_all_busy (channel : Nat) (busy : List Nat) (m : Module)
    (hbusy : ∀ x ∈ busy, rdy channel x ≠ 0) :
    wait_ready channel busy m = none := by
  induction busy generalizing m with
  | nil => simp [wait_ready]
  | cons x xs ih =>
    have hx : rdy channel x ≠ 0 := hbusy x (by simp)
    have hxs : ∀ y ∈ xs, rdy channel y ≠ 0 := fun y hy => hbusy y (by simp [hy])
    simp [wait_ready, hx, ih _ hxs]

/-! ## The frequency computation -/

/-- With a table entry that is not zero the computation has a result, and no
step of it leaves the 32-bit range. -/
theorem pwm_freq_of_divider (chan : pwm_channel) (d : Nat)
    (hd : clock_divider[chan.prescale]? = some d) (h0 : d ≠ 0) :
    pwm_freq chan = some (24000000 / d / (chan.entire_cycles + 1)) := by
  have hlt : chan.entire_cycles < 2 ^ 16 := getBits_lt _ _ _
  have hmod : (chan.entire_cycles + 1) % 2 ^ 32 = chan.entire_cycles + 1 :=
    Nat.mod_eq_of_lt (by omega)
  simp only [pwm_freq, hd, hmod]
  simp [h0]

theorem size_ne_einval (size : Nat) : (size : Int) ≠ -EINVAL := by
  unfold EINVAL
  omega

/-! ## The prescale store -/

theorem pwm_prescale_store_accept (dev : Fin 2) (v size stack : Nat) (m : Module)
    (hv : v ≤ 15) :
    pwm_prescale_store dev (some v) size stack m
      = ((size : Int),
          (update_ctrl_reg stack (m.setChan dev { m.chan dev with prescale := v })).2) := by
  have hmod : v % 256 = v := Nat.mod_eq_of_lt (by omega)
  simp [pwm_prescale_store, PRESCALE_DIV120, PRESCALE_DIV_NO, hmod, hv]

theorem pwm_prescale_store_reject (dev : Fin 2) (v size stack : Nat) (m : Module)
    (hv : v < 256) (h15 : 15 < v) :
    pwm_prescale_store dev (some v) size stack m = (-EINVAL, m) := by
  have hmod : v % 256 = v := Nat.mod_eq_of_lt hv
  simp [pwm_prescale_store, PRESCALE_DIV120, PRESCALE_DIV_NO, hmod, h15]

/-! ## Claims -/

/-- C1: `update_ctrl_reg` issues one write of the control register, and in the
word it writes channel `c` (with base `15 * c`) has its prescale code in bits
base..base+3, enable in bit base+4, polarity in bit base+5, clock gating in bit
base+6, mode in bit base+7, pulse_start in bit base+8 and bypass in bit base+9,
each stored value cut to the width of its field; channel 0 thus occupies bits
0..9 and channel 1 bits 15..24. -/
theorem C1_ctrl_reg_layout (stack : Nat) (m : Module) (c : Fin 2) :
    (update_ctrl_reg stack m).2.trace
        = m.trace ++ [.iowrite32 (ctrl_image stack m.channel0 m.channel1) PWM_CTRL_REG] ∧
    getBits (ctrl_image stack m.channel0 m.channel1) (15 * c.val) 4
        = (m.chan c).prescale % 16 ∧
    getBits (ctrl_image stack m.channel0 m.channel1) (15 * c.val + 4) 1
        = (m.chan c).enable % 2 ∧
    getBits (ctrl_image stack m.channel0 m.channel1) (15 * c.val + 5) 1
        = (m.chan c).polarity % 2 ∧
    getBits (ctrl_image stack m.channel0 m.channel1) (15 * c.val + 6) 1
        = (m.chan c).gating % 2 ∧
    getBits (ctrl_image stack m.channel0 m.channel1) (15 * c.val + 7) 1
        = (m.chan c).mode % 2 ∧
    getBits (ctrl_image stack m.channel0 m.channel1) (15 * c.val + 8) 1
        = (m.chan c).pulse_start % 2 ∧
    getBits (ctrl_image stack m.channel0 m.channel1) (15 * c.val + 9) 1
        = (m.chan c).bypass % 2 := by
  refine ⟨trace_update_ctrl_reg stack m, ?_⟩
  fin_cases c
  · simpa [Module.chan] using ctrl_image_ch0 stack m.channel0 m.channel1
  · simpa [Module.chan] using ctrl_image_ch1 stack m.channel0 m.channel1

/-- C2: the word `update_ctrl_reg` writes carries in bits 28 and 29 whatever
its local `ctrl` held on entry, because the function assigns neither
`pwm0_rdy` nor `pwm1_rdy`; entered with `0x30000000` in that local on a freshly
loaded module, it writes `0x30000000`, with both busy flags set. -/
theorem C2_busy_bits_left_unassigned :
    (∀ (stack : Nat) (ch0 ch1 : pwm_channel),
      getBits (ctrl_image stack ch0 ch1) 28 1 = getBits stack 28 1 ∧
      getBits (ctrl_image stack ch0 ch1) 29 1 = getBits stack 29 1) ∧
    (update_ctrl_reg 0x30000000 (opi0_init 0 0)).2.trace.getLast?
      = some (.iowrite32 0x30000000 PWM_CTRL_REG) ∧
    getBits 0x30000000 28 1 = 1 ∧ getBits 0x30000000 29 1 = 1 := by
  refine ⟨fun stack ch0 ch1 => ?_, by decide, by decide, by decide⟩
  have h := ctrl_image_unassigned stack ch0 ch1
  exact ⟨h.2.2.1, h.2.2.2.1⟩

/-- C3: when the control register answers with channel `dev`'s busy bit (bit
28 for channel 0, bit 29 for channel 1) set on the reads `busy` and clear on the
next read `clear`, a store to `entirecycles` or to `activecycles` succeeds,
leaves the later answers `rest` unread, and adds to the trace exactly the reads
of `busy`, the read of `clear` and then one write, to the channel's own period
register: `busy.length + 1` reads, no write before the clear read, one write
after it.  Nothing is assumed of the other channel's busy bit. -/
theorem C3_period_write_waits_for_ready (dev : Fin 2) (v size : Nat)
    (busy : List Nat) (clear : Nat) (rest : List Nat) (m : Module)
    (hm : m.Mapped)
    (hbusy : ∀ x ∈ busy, getBits x (28 + dev.val) 1 = 1)
    (hclear : getBits clear (28 + dev.val) 1 = 0) :
    (pwm_entirecycles_store dev (some v) size (busy ++ clear :: rest) m).map
        (fun r => (r.1, r.2.1.trace, r.2.2))
      = some ((size : Int),
          m.trace ++ busy.map (.ioread32 PWM_CTRL_REG)
            ++ [.ioread32 PWM_CTRL_REG clear,
                .iowrite32 (setBits (m.chan dev).cycles 16 16 (v % 2 ^ 16)) (period_reg dev)],
          rest) ∧
    (pwm_activecycles_store dev (some v) size (busy ++ clear :: rest) m).map
        (fun r => (r.1, r.2.1.trace, r.2.2))
      = some ((size : Int),
          m.trace ++ busy.map (.ioread32 PWM_CTRL_REG)
            ++ [.ioread32 PWM_CTRL_REG clear,
                .iowrite32 (setBits (m.chan dev).cycles 0 16 (v % 2 ^ 16)) (period_reg dev)],
          rest) := by
  obtain ⟨hc, ha⟩ := mapped_chan m hm dev
  have hb : ∀ x ∈ busy, rdy dev.val x ≠ 0 := by
    intro x hx
    rw [rdy_eq, hbusy x hx]
    decide
  have hr : rdy dev.val clear = 0 := by rw [rdy_eq, hclear]
  constructor
  · simp only [pwm_entirecycles_store, hc, ha]
    rw [wait_ready_busy_then_clear _ _ _ _ _ hb hr]
    simp [Module.emit, trace_setChan]
  · simp only [pwm_activecycles_store, hc, ha]
    rw [wait_ready_busy_then_clear _ _ _ _ _ hb hr]
    simp [Module.emit, trace_setChan]

/-- Witness of C3 on channel 1 of a freshly loaded module: two busy answers
(the second also with channel 0 busy), then a clear one. -/
theorem C3_period_write_waits_for_ready_witness :
    (pwm_entirecycles_store 1 (some 99) 3 ([0x20000000, 0x30000000] ++ 0x10000000 :: [7])
        (opi0_init 0 0)).map (fun r => (r.1, r.2.1.trace, r.2.2))
      = some ((3 : Int),
          (opi0_init 0 0).trace ++ [.ioread32 PWM_CTRL_REG 0x20000000,
            .ioread32 PWM_CTRL_REG 0x30000000, .ioread32 PWM_CTRL_REG 0x10000000,
            .iowrite32 0x00630000 PWM_CH1_PERIOD],
          [7]) :=
  (C3_period_write_waits_for_ready 1 99 3 [0x20000000, 0x30000000] 0x10000000 [7]
    (opi0_init 0 0) (by decide) (by decide) (by decide)).1

/-- C4: the table `clock_divider` has sixteen entries; codes 0..4 give 120, 180,
240, 360, 480, codes 8..12 give 12000, 24000, 36000, 48000, 72000, code 15 gives
1, and the entry written `-1` (no divisor) stands at exactly the codes 5, 6, 7,
13 and 14. -/
theorem C4_clock_divider_table :
    clock_divider.length = 16 ∧
    clock_divider[0]? = some 120 ∧ clock_divider[1]? = some 180 ∧
    clock_divider[2]? = some 240 ∧ clock_divider[3]? = some 360 ∧
    clock_divider[4]? = some 480 ∧
    clock_divider[8]? = some 12000 ∧ clock_divider[9]? = some 24000 ∧
    clock_divider[10]? = some 36000 ∧ clock_divider[11]? = some 48000 ∧
    clock_divider[12]? = some 72000 ∧
    clock_divider[15]? = some 1 ∧
    ∀ code : Fin 16, clock_divider[code.val]? = some 4294967295 ↔
      (code.val = 5 ∨ code.val = 6 ∨ code.val = 7 ∨ code.val = 13 ∨ code.val = 14) := by
  decide

/-- C5: for a channel whose prescale code is one of 0..4, 8..12, 15, with
table entry `d`, and whose entire-cycles field holds `t`, the freqperiod query
reports `24000000 / d / (t + 1)`, both divisions truncating and taken in that
order; `t + 1` is at most 65536 and `24000000 / d` at most 24000000, so nothing
leaves the 32-bit range.  With code 2 and `t = 99` the report is 1000. -/
theorem C5_freqperiod_value (m : Module) (dev : Fin 2) (code d t : Nat)
    (hcode : code ∈ [0, 1, 2, 3, 4, 8, 9, 10, 11, 12, 15])
    (hd : clock_divider[code]? = some d)
    (hp : (m.chan dev).prescale = code) (ht : (m.chan dev).entire_cycles = t) :
    pwm_freq (m.chan dev) = some (24000000 / d / (t + 1)) ∧
    pwm_freqperiod_show m dev = some (toString (24000000 / d / (t + 1)) ++ "hz\n") ∧
    t < 65536 ∧ t + 1 < 2 ^ 32 ∧ 24000000 / d < 2 ^ 32 ∧
    (code = 2 → t = 99 → pwm_freq (m.chan dev) = some 1000) := by
  have hlt : t < 2 ^ 16 := ht ▸ getBits_lt _ _ _
  have h0 : d ≠ 0 := by
    intro h
    subst h
    simp only [List.mem_cons, List.mem_singleton, List.not_mem_nil, or_false] at hcode
    rcases hcode with h | h | h | h | h | h | h | h | h | h | h <;> subst h <;>
      simp [clock_divider] at hd
  have hf := pwm_freq_of_divider (m.chan dev) d (hp ▸ hd) h0
  rw [ht] at hf
  refine ⟨hf, ?_, by omega, by omega, ?_, ?_⟩
  · simp [pwm_freqperiod_show, hf]
  · exact lt_of_le_of_lt (Nat.div_le_self _ _) (by norm_num)
  · intro hc h99
    subst hc
    subst h99
    simp only [clock_divider] at hd
    have hd2 : d = 240 := by simpa using hd.symm
    rw [hf, hd2]

/-- Witness of C5: channel 0 with prescale code 2 and 99 entire cycles
reports `1000hz`. -/
theorem C5_freqperiod_value_witness :
    pwm_freqperiod_show
        { opi0_init 0 0 with
          channel0 := { (opi0_init 0 0).channel0 with prescale := 2, cycles := 99 * 65536 } } 0
      = some "1000hz\n" :=
  (C5_freqperiod_value
    { opi0_init 0 0 with
      channel0 := { (opi0_init 0 0).channel0 with prescale := 2, cycles := 99 * 65536 } }
    0 2 240 99 (by decide) (by decide) (by decide) (by decide)).2.1

/-- C6, as stated, fails: after the accepted store of the reserved code 5 on
channel 0 of a freshly loaded module the freqperiod query has a result, the
text `0hz`. -/
theorem C6_reserved_code_reports_a_number :
    (pwm_prescale_store 0 (some 5) 2 0 (opi0_init 0 0)).1 = 2 ∧
    pwm_freqperiod_show (pwm_prescale_store 0 (some 5) 2 0 (opi0_init 0 0)).2 0
      = some "0hz\n" ∧
    pwm_freqperiod_show (pwm_prescale_store 0 (some 5) 2 0 (opi0_init 0 0)).2 0 ≠ none := by
  decide

/-- C6, amended: for a channel whose prescale code is reserved (5, 6, 7, 13 or
14) the freqperiod query reports the number 0, whatever the entire-cycles
field holds: the table entry is 4294967295 and 24000000 / 4294967295 = 0. -/
theorem C6_reserved_code_reports_zero (m : Module) (dev : Fin 2)
    (hcode : (m.chan dev).prescale ∈ [5, 6, 7, 13, 14]) :
    clock_divider[(m.chan dev).prescale]? = some 4294967295 ∧
    pwm_freq (m.chan dev) = some 0 ∧
    pwm_freqperiod_show m dev = some "0hz\n" := by
  have hd : clock_divider[(m.chan dev).prescale]? = some 4294967295 := by
    simp only [List.mem_cons, List.mem_singleton, List.not_mem_nil, or_false] at hcode
    rcases hcode with h | h | h | h | h <;> rw [h] <;> decide
  have hf := pwm_freq_of_divider (m.chan dev) 4294967295 hd (by decide)
  have hz : pwm_freq (m.chan dev) = some 0 := by
    rw [hf]
    simp
  refine ⟨hd, hz, ?_⟩
  simp only [pwm_freqperiod_show, hz]
  decide

/-- Witness of the amended C6: code 13 on channel 1, 99 entire cycles. -/
theorem C6_reserved_code_reports_zero_witness :
    pwm_freqperiod_show
        { opi0_init 0 0 with
          channel1 := { (opi0_init 0 0).channel1 with prescale := 13, cycles := 99 * 65536 } } 1
      = some "0hz\n" :=
  (C6_reserved_code_reports_zero
    { opi0_init 0 0 with
      channel1 := { (opi0_init 0 0).channel1 with prescale := 13, cycles := 99 * 65536 } }
    1 (by decide)).2.2

/-- C7: for every module state, channel and value `v` in {false, true},
`pwm_enable` returns 1 and leaves the channel with enable = v, polarity = 1,
gating = 1, mode = 0 (cycle mode) and prescale = 2 (divide by 240), every other
field (pulse_start, bypass, both cycle counts, number, register address) as it
was; so enabling and then disabling leaves enable = 0 with polarity = 1,
gating = 1, mode = 0 and prescale = 2, whatever the state before. -/
theorem C7_pwm_enable_sets_defaults (v : Bool) (dev : Fin 2) (stack stack2 : Nat)
    (m : Module) :
    (pwm_enable v.toNat dev stack m).1 = 1 ∧
    (pwm_enable v.toNat dev stack m).2.chan dev
      = { m.chan dev with
          enable := v.toNat, polarity := 1, gating := 1, mode := 0, prescale := 2 } ∧
    (pwm_enable 0 dev stack2 (pwm_enable 1 dev stack m).2).2.chan dev
      = { m.chan dev with
          enable := 0, polarity := 1, gating := 1, mode := 0, prescale := 2 } := by
  refine ⟨rfl, ?_, ?_⟩
  · cases v <;>
      simp [pwm_enable, chan_update_ctrl_reg, chan_setChan, PRESCALE_DIV240]
  · simp [pwm_enable, chan_update_ctrl_reg, chan_setChan, PRESCALE_DIV240]

/-- C8: for every scanned prescale value `v` (an unsigned byte) the prescale
store returns `-EINVAL` exactly when `v > 15`; every `v` in 0..15, the reserved
codes 5, 6, 7, 13, 14 among them, is accepted: the store returns `size` and `v`
is the channel's prescale code afterwards. -/
theorem C8_prescale_store_range (dev : Fin 2) (v size stack : Nat) (m : Module)
    (hv : v < 256) :
    ((pwm_prescale_store dev (some v) size stack m).1 = -EINVAL ↔ 15 < v) ∧
    (v ≤ 15 →
      (pwm_prescale_store dev (some v) size stack m).1 = size ∧
      ((pwm_prescale_store dev (some v) size stack m).2.chan dev).prescale = v) := by
  by_cases h : v ≤ 15
  · rw [pwm_prescale_store_accept dev v size stack m h]
    refine ⟨⟨fun e => absurd e (size_ne_einval size), fun e => absurd e (by omega)⟩,
      fun _ => ⟨rfl, ?_⟩⟩
    simp [chan_update_ctrl_reg, chan_setChan]
  · rw [pwm_prescale_store_reject dev v size stack m hv (by omega)]
    exact ⟨⟨fun _ => by omega, fun _ => rfl⟩, fun hh => absurd hh h⟩

/-- Witness of C8: the reserved code 13 is accepted on channel 1. -/
theorem C8_prescale_store_range_witness :
    (pwm_prescale_store 1 (some 13) 3 0 (opi0_init 0 0)).1 = 3 ∧
    ((pwm_prescale_store 1 (some 13) 3 0 (opi0_init 0 0)).2.chan 1).prescale = 13 :=
  (C8_prescale_store_range 1 13 3 0 (opi0_init 0 0) (by decide)).2 (by decide)

/-- C9: a rejected write changes nothing.  A run value of 2 or more, a
prescale value above 15 and every write to freqperiod return `-EINVAL` with
both channels and the trace as before the call; and whatever was scanned, a
run, polarity, prescale, entirecycles or activecycles store that returns
`-EINVAL` returns the module as it received it (and has read no register). -/
theorem C9_rejected_write_changes_nothing (dev : Fin 2) (size stack : Nat) (m : Module) :
    (∀ v : Int, 2 ≤ v → pwm_run_store dev (some v) size stack m = (-EINVAL, m)) ∧
    (∀ v : Nat, v < 256 → 15 < v →
      pwm_prescale_store dev (some v) size stack m = (-EINVAL, m)) ∧
    pwm_freqperiod_store dev size m = (-EINVAL, m) ∧
    (∀ p, (pwm_run_store dev p size stack m).1 = -EINVAL →
      (pwm_run_store dev p size stack m).2 = m) ∧
    (∀ p, (pwm_polarity_store dev p size stack m).1 = -EINVAL →
      (pwm_polarity_store dev p size stack m).2 = m) ∧
    (∀ p, (pwm_prescale_store dev p size stack m).1 = -EINVAL →
      (pwm_prescale_store dev p size stack m).2 = m) ∧
    (∀ p reads r, pwm_entirecycles_store dev p size reads m = some r → r.1 = -EINVAL →
      r.2.1 = m ∧ r.2.2 = reads) ∧
    (∀ p reads r, pwm_activecycles_store dev p size reads m = some r → r.1 = -EINVAL →
      r.2.1 = m ∧ r.2.2 = reads) := by
  have hsz := size_ne_einval size
  refine ⟨?_, ?_, rfl, ?_, ?_, ?_, ?_, ?_⟩
  · intro v hv
    have : ¬ v < 2 := by omega
    simp [pwm_run_store, this]
  · intro v hv h15
    exact pwm_prescale_store_reject dev v size stack m hv h15
  · intro p h
    cases p with
    | none => rfl
    | some v =>
      by_cases hv : v < 2
      · simp [pwm_run_store, hv, pwm_enable, hsz] at h
      · simp [pwm_run_store, hv]
  · intro p h
    cases p with
    | none => rfl
    | some v => simp [pwm_polarity_store, hsz] at h
  · intro p h
    cases p with
    | none => rfl
    | some v =>
      by_cases hv : v % 2 ^ 8 ≥ PRESCALE_DIV120 ∧ v % 2 ^ 8 ≤ PRESCALE_DIV_NO
      · simp only [pwm_prescale_store, hv, and_self, if_true] at h
        exact absurd h hsz
      · simp only [pwm_prescale_store, hv, if_false]
  · intro p reads r hr h
    cases p with
    | none =>
      simp only [pwm_entirecycles_store, Option.some.injEq] at hr
      subst hr
      exact ⟨rfl, rfl⟩
    | some v =>
      simp only [pwm_entirecycles_store] at hr
      split at hr
      · cases hr
      · simp only [Option.some.injEq] at hr
        subst hr
        exact absurd h hsz
  · intro p reads r hr h
    cases p with
    | none =>
      simp only [pwm_activecycles_store, Option.some.injEq] at hr
      subst hr
      exact ⟨rfl, rfl⟩
    | some v =>
      simp only [pwm_activecycles_store] at hr
      split at hr
      · cases hr
      · simp only [Option.some.injEq] at hr
        subst hr
        exact absurd h hsz

/-- Witness of C9: the run value 2 is rejected on a freshly loaded module. -/
theorem C9_rejected_write_changes_nothing_witness :
    pwm_run_store 0 (some 2) 2 0 (opi0_init 0 0) = (-EINVAL, opi0_init 0 0) :=
  (C9_rejected_write_changes_nothing 0 2 0 (opi0_init 0 0)).1 2 (by decide)

/-- C10: the run store accepts every scanned integer below 2, the negative
ones included, and stores its low eight bits: written on channel 0 of a freshly
loaded module, the value -1 is accepted (the store returns `size`), the stored
enable value is 255 and the run attribute then reads `255`. -/
theorem C10_run_store_accepts_negative :
    (pwm_run_store 0 (some (-1)) 3 0 (opi0_init 0 0)).1 = 3 ∧
    (pwm_run_store 0 (some (-1)) 3 0 (opi0_init 0 0)).2.channel0.enable = 255 ∧
    pwm_run_show (pwm_run_store 0 (some (-1)) 3 0 (opi0_init 0 0)).2 0 = "255\n" := by
  decide

/-! ## Whole fields of the control word -/

/-- A field read splits into its low part and its high part. -/
theorem getBits_split (w o n k : Nat) :
    getBits w o (n + k) = getBits w o n + 2 ^ n * getBits w (o + n) k := by
  unfold getBits
  rw [pow_add, Nat.mod_mul, pow_add, Nat.div_div_eq_div_mul]

/-- The ten bits of a channel's field, bit by bit. -/
theorem getBits_ten (w o : Nat) :
    getBits w o 10
      = getBits w o 4 + 16 * getBits w (o + 4) 1 + 32 * getBits w (o + 5) 1
        + 64 * getBits w (o + 6) 1 + 128 * getBits w (o + 7) 1
        + 256 * getBits w (o + 8) 1 + 512 * getBits w (o + 9) 1 := by
  have h1 := getBits_split w o 4 6
  have h2 := getBits_split w (o + 4) 1 5
  have h3 := getBits_split w (o + 5) 1 4
  have h4 := getBits_split w (o + 6) 1 3
  have h5 := getBits_split w (o + 7) 1 2
  have h6 := getBits_split w (o + 8) 1 1
  norm_num [Nat.add_assoc] at h1 h2 h3 h4 h5 h6
  omega

/-- Channel 0's ten bits of the word `update_ctrl_reg` writes depend on channel
0 alone. -/
theorem ctrl_image_field0 (stack : Nat) (ch0 ch1 : pwm_channel) :
    getBits (ctrl_image stack ch0 ch1) 0 10
      = ch0.prescale % 16 + 16 * (ch0.enable % 2) + 32 * (ch0.polarity % 2)
        + 64 * (ch0.gating % 2) + 128 * (ch0.mode % 2) + 256 * (ch0.pulse_start % 2)
        + 512 * (ch0.bypass % 2) := by
  obtain ⟨h1, h2, h3, h4, h5, h6, h7⟩ := ctrl_image_ch0 stack ch0 ch1
  have h := getBits_ten (ctrl_image stack ch0 ch1) 0
  norm_num at h
  rw [h, h1, h2, h3, h4, h5, h6, h7]

/-- Channel 1's ten bits of the word `update_ctrl_reg` writes depend on channel
1 alone. -/
theorem ctrl_image_field1 (stack : Nat) (ch0 ch1 : pwm_channel) :
    getBits (ctrl_image stack ch0 ch1) 15 10
      = ch1.prescale % 16 + 16 * (ch1.enable % 2) + 32 * (ch1.polarity % 2)
        + 64 * (ch1.gating % 2) + 128 * (ch1.mode % 2) + 256 * (ch1.pulse_start % 2)
        + 512 * (ch1.bypass % 2) := by
  obtain ⟨h1, h2, h3, h4, h5, h6, h7⟩ := ctrl_image_ch1 stack ch0 ch1
  have h := getBits_ten (ctrl_image stack ch0 ch1) 15
  norm_num at h
  rw [h, h1, h2, h3, h4, h5, h6, h7]

/-! ## The latest control word -/

theorem last_ctrl_write_append_ctrl (t : List Access) (v : Nat) :
    last_ctrl_write (t ++ [.iowrite32 v PWM_CTRL_REG]) = some v := by
  simp [last_ctrl_write, List.foldl_append]

theorem last_ctrl_write_append_other (t : List Access) (v addr : Nat)
    (h : addr ≠ PWM_CTRL_REG) :
    last_ctrl_write (t ++ [.iowrite32 v addr]) = last_ctrl_write t := by
  simp [last_ctrl_write, List.foldl_append, h]

theorem last_ctrl_write_append_read (t : List Access) (addr v : Nat) :
    last_ctrl_write (t ++ [.ioread32 addr v]) = last_ctrl_write t := by
  simp [last_ctrl_write, List.foldl_append]

/-- The polling loop touches no channel and writes no register. -/
theorem wait_ready_frame (channel : Nat) (reads : List Nat) (m m2 : Module)
    (rest : List Nat) (h : wait_ready channel reads m = some (m2, rest)) :
    m2.channel0 = m.channel0 ∧ m2.channel1 = m.channel1 ∧
    last_ctrl_write m2.trace = last_ctrl_write m.trace := by
  induction reads generalizing m with
  | nil => simp [wait_ready] at h
  | cons x xs ih =>
    simp only [wait_ready] at h
    split at h
    · obtain ⟨h0, h1, h2⟩ := ih _ h
      exact ⟨h0, h1, h2.trans (last_ctrl_write_append_read _ _ _)⟩
    · simp only [Option.some.injEq, Prod.mk.injEq] at h
      obtain ⟨rfl, _⟩ := h
      exact ⟨rfl, rfl, last_ctrl_write_append_read _ _ _⟩

/-! ## Invariance -/

theorem sound_init (pa_cfg0 pa_pull0 : Nat) : (opi0_init pa_cfg0 pa_pull0).Sound := by
  refine ⟨⟨rfl, rfl, rfl, rfl⟩, ?_, ?_, ?_⟩
  · simp [opi0_init, Module.emit, zero_channel]
  · simp [opi0_init, Module.emit, zero_channel]
  intro prev h
  simp [opi0_init, Module.emit, last_ctrl_write, PA_CFG0_REG, PA_PULL0_REG, PWM_CTRL_REG] at h

/-- A control update of a channel that keeps its number and its register and
stores a table index keeps the invariant. -/
theorem sound_update (stack : Nat) (m : Module) (dev : Fin 2) (c : pwm_channel)
    (hm : m.Sound) (hch : c.channel = (m.chan dev).channel)
    (haddr : c.period_reg_addr = (m.chan dev).period_reg_addr) (hp : c.prescale < 16) :
    (update_ctrl_reg stack (m.setChan dev c)).2.Sound := by
  obtain ⟨⟨hm1, hm2, hm3, hm4⟩, hp0, hp1, _⟩ := hm
  have hsync : (update_ctrl_reg stack (m.setChan dev c)).2.Synced := by
    intro prev h
    rw [trace_update_ctrl_reg, last_ctrl_write_append_ctrl] at h
    simp only [Option.some.injEq] at h
    subst h
    simp only [update_ctrl_reg, Module.emit]
    rw [ctrl_image_field0, ctrl_image_field0, ctrl_image_field1, ctrl_image_field1]
    exact ⟨rfl, rfl⟩
  refine ⟨?_, ?_, ?_, hsync⟩
  · fin_cases dev <;>
      simp_all [Module.Mapped, update_ctrl_reg, Module.emit, Module.setChan, Module.chan]
  · fin_cases dev <;>
      simp_all [update_ctrl_reg, Module.emit, Module.setChan, Module.chan]
  · fin_cases dev <;>
      simp_all [update_ctrl_reg, Module.emit, Module.setChan, Module.chan]

theorem period_reg_ne_ctrl (dev : Fin 2) : period_reg dev ≠ PWM_CTRL_REG := by
  fin_cases dev <;> decide

/-- A period write (new cycle counts, polling, one write to the channel's
period register) keeps the invariant. -/
theorem sound_period (m m2 : Module) (dev : Fin 2) (c v channel : Nat)
    (reads rest : List Nat) (hm : m.Sound)
    (hw : wait_ready channel reads (m.setChan dev { m.chan dev with cycles := c })
      = some (m2, rest)) :
    (m2.emit (.iowrite32 v (m.chan dev).period_reg_addr)).Sound := by
  obtain ⟨h0, h1, h2⟩ := wait_ready_frame _ _ _ _ _ hw
  rw [trace_setChan] at h2
  obtain ⟨hmap, hp0, hp1, hs⟩ := hm
  have haddr := (mapped_chan m hmap dev).2
  have hlast : last_ctrl_write (m2.emit (.iowrite32 v (m.chan dev).period_reg_addr)).trace
      = last_ctrl_write m.trace := by
    simp only [Module.emit]
    rw [last_ctrl_write_append_other _ _ _ (haddr ▸ period_reg_ne_ctrl dev), h2]
  obtain ⟨hm1, hm2, hm3, hm4⟩ := hmap
  have hsync : (m2.emit (.iowrite32 v (m.chan dev).period_reg_addr)).Synced := by
    intro prev h
    rw [hlast] at h
    have hprev := hs prev h
    rw [ctrl_image_field0, ctrl_image_field1] at hprev ⊢
    simp only [Module.emit, h0, h1]
    fin_cases dev <;> simpa [Module.setChan, Module.chan] using hprev
  refine ⟨?_, ?_, ?_, hsync⟩
  · simp only [Module.Mapped, Module.emit, h0, h1]
    fin_cases dev <;> simp [Module.setChan, Module.chan, hm1, hm2, hm3, hm4]
  · simp only [Module.emit, h0]
    fin_cases dev <;> simpa [Module.setChan, Module.chan] using hp0
  · simp only [Module.emit, h1]
    fin_cases dev <;> simpa [Module.setChan, Module.chan] using hp1

theorem sound_run_store (dev : Fin 2) (p : Option Int) (size stack : Nat) (m : Module)
    (hm : m.Sound) : (pwm_run_store dev p size stack m).2.Sound := by
  cases p with
  | none => exact hm
  | some v =>
    by_cases hv : v < 2
    · simp only [pwm_run_store, hv, if_true, pwm_enable]
      exact sound_update stack m dev _ hm rfl rfl (by simp [PRESCALE_DIV240])
    · simpa [pwm_run_store, hv] using hm

theorem sound_polarity_store (dev : Fin 2) (p : Option Nat) (size stack : Nat) (m : Module)
    (hm : m.Sound) : (pwm_polarity_store dev p size stack m).2.Sound := by
  cases p with
  | none => exact hm
  | some v =>
    simp only [pwm_polarity_store]
    refine sound_update stack m dev _ hm ?_ ?_ ?_
    · split <;> rfl
    · split <;> rfl
    · have hp : (m.chan dev).prescale < 16 := by
        fin_cases dev
        · exact hm.2.1
        · exact hm.2.2.1
      split <;> exact hp

theorem sound_prescale_store (dev : Fin 2) (p : Option Nat) (size stack : Nat) (m : Module)
    (hm : m.Sound) : (pwm_prescale_store dev p size stack m).2.Sound := by
  cases p with
  | none => exact hm
  | some v =>
    by_cases hv : v % 2 ^ 8 ≥ PRESCALE_DIV120 ∧ v % 2 ^ 8 ≤ PRESCALE_DIV_NO
    · simp only [pwm_prescale_store, hv, and_self, if_true]
      refine sound_update stack m dev _ hm rfl rfl ?_
      have := hv.2
      unfold PRESCALE_DIV_NO at this
      show v % 2 ^ 8 < 16
      omega
    · simpa only [pwm_prescale_store, hv, if_false] using hm

theorem sound_entirecycles_store (dev : Fin 2) (p : Option Nat) (size : Nat)
    (reads : List Nat) (m : Module) (r : Int × Module × List Nat) (hm : m.Sound)
    (h : pwm_entirecycles_store dev p size reads m = some r) : r.2.1.Sound := by
  cases p with
  | none =>
    simp only [pwm_entirecycles_store, Option.some.injEq] at h
    subst h
    exact hm
  | some v =>
    simp only [pwm_entirecycles_store] at h
    split at h
    · cases h
    · rename_i m2 rest hw
      simp only [Option.some.injEq] at h
      subst h
      exact sound_period m m2 dev _ _ _ _ _ hm hw

theorem sound_activecycles_store (dev : Fin 2) (p : Option Nat) (size : Nat)
    (reads : List Nat) (m : Module) (r : Int × Module × List Nat) (hm : m.Sound)
    (h : pwm_activecycles_store dev p size reads m = some r) : r.2.1.Sound := by
  cases p with
  | none =>
    simp only [pwm_activecycles_store, Option.some.injEq] at h
    subst h
    exact hm
  | some v =>
    simp only [pwm_activecycles_store] at h
    split at h
    · cases h
    · rename_i m2 rest hw
      simp only [Option.some.injEq] at h
      subst h
      exact sound_period m m2 dev _ _ _ _ _ hm hw

theorem sound_hardware_show (pa_cfg0 ctrl period0 period1 : Nat) (m : Module)
    (hm : m.Sound) : (pwm_hardware_show pa_cfg0 ctrl period0 period1 m).2.Sound := by
  obtain ⟨hmap, hp0, hp1, hs⟩ := hm
  refine ⟨hmap, hp0, hp1, ?_⟩
  intro prev h
  apply hs prev
  simpa only [pwm_hardware_show, Module.emit, last_ctrl_write_append_read] using h

/-- Every reachable state satisfies the invariant. -/
theorem reachable_sound (m : Module) (h : Reachable m) : m.Sound := by
  induction h with
  | init a b => exact sound_init a b
  | run m dev p size stack _ ih => exact sound_run_store dev p size stack m ih
  | polarity m dev p size stack _ ih => exact sound_polarity_store dev p size stack m ih
  | prescale m dev p size stack _ ih => exact sound_prescale_store dev p size stack m ih
  | entirecycles m dev p size reads r _ hr ih =>
    exact sound_entirecycles_store dev p size reads m r ih hr
  | activecycles m dev p size reads r _ hr ih =>
    exact sound_activecycles_store dev p size reads m r ih hr
  | freqperiod m dev size _ ih => exact ih
  | hardware m a c p0 p1 _ ih => exact sound_hardware_show a c p0 p1 m ih

/-! ## Results of the stores -/

theorem chan_setChan_ne (m : Module) (dev other : Fin 2) (c : pwm_channel)
    (h : other ≠ dev) : (m.setChan dev c).chan other = m.chan other := by
  fin_cases dev <;> fin_cases other <;> simp_all [Module.chan, Module.setChan]

/-- The word `update_ctrl_reg` writes holds `ctrl_field` of each channel in the
ten bits of the channel. -/
theorem ctrl_image_field (stack : Nat) (m : Module) (c : Fin 2) :
    getBits (ctrl_image stack m.channel0 m.channel1) (15 * c.val) 10
      = ctrl_field (m.chan c) := by
  fin_cases c
  · simpa [Module.chan, ctrl_field] using ctrl_image_field0 stack m.channel0 m.channel1
  · simpa [Module.chan, ctrl_field] using ctrl_image_field1 stack m.channel0 m.channel1

theorem chan_with_trace (m : Module) (t : List Access) (dev : Fin 2) :
    ({ m with trace := t } : Module).chan dev = m.chan dev := rfl

/-- An `entirecycles` store whose polling ends: the whole result. -/
theorem pwm_entirecycles_store_ready (dev : Fin 2) (v size : Nat) (busy : List Nat)
    (clear : Nat) (rest : List Nat) (m : Module)
    (hbusy : ∀ x ∈ busy, rdy (m.chan dev).channel x ≠ 0)
    (hclear : rdy (m.chan dev).channel clear = 0) :
    pwm_entirecycles_store dev (some v) size (busy ++ clear :: rest) m
      = some ((size : Int),
          { m.setChan dev
              { m.chan dev with cycles := setBits (m.chan dev).cycles 16 16 (v % 2 ^ 16) } with
            trace := m.trace ++ busy.map (.ioread32 PWM_CTRL_REG)
              ++ [.ioread32 PWM_CTRL_REG clear,
                  .iowrite32 (setBits (m.chan dev).cycles 16 16 (v % 2 ^ 16))
                    (m.chan dev).period_reg_addr] },
          rest) := by
  simp only [pwm_entirecycles_store]
  rw [wait_ready_busy_then_clear _ _ _ _ _ hbusy hclear]
  simp [Module.emit, trace_setChan]

/-- An `activecycles` store whose polling ends: the whole result. -/
theorem pwm_activecycles_store_ready (dev : Fin 2) (v size : Nat) (busy : List Nat)
    (clear : Nat) (rest : List Nat) (m : Module)
    (hbusy : ∀ x ∈ busy, rdy (m.chan dev).channel x ≠ 0)
    (hclear : rdy (m.chan dev).channel clear = 0) :
    pwm_activecycles_store dev (some v) size (busy ++ clear :: rest) m
      = some ((size : Int),
          { m.setChan dev
              { m.chan dev with cycles := setBits (m.chan dev).cycles 0 16 (v % 2 ^ 16) } with
            trace := m.trace ++ busy.map (.ioread32 PWM_CTRL_REG)
              ++ [.ioread32 PWM_CTRL_REG clear,
                  .iowrite32 (setBits (m.chan dev).cycles 0 16 (v % 2 ^ 16))
                    (m.chan dev).period_reg_addr] },
          rest) := by
  simp only [pwm_activecycles_store]
  rw [wait_ready_busy_then_clear _ _ _ _ _ hbusy hclear]
  simp [Module.emit, trace_setChan]

/-- Whatever an `entirecycles` store returns, it has changed at most the cycle
word of its channel. -/
theorem pwm_entirecycles_store_chan (dev : Fin 2) (v size : Nat) (reads : List Nat)
    (m : Module) (r : Int × Module × List Nat)
    (h : pwm_entirecycles_store dev (some v) size reads m = some r) :
    r.1 = size ∧
    r.2.1.chan dev
      = { m.chan dev with cycles := setBits (m.chan dev).cycles 16 16 (v % 2 ^ 16) } ∧
    ∀ other, other ≠ dev → r.2.1.chan other = m.chan other := by
  simp only [pwm_entirecycles_store] at h
  split at h
  · cases h
  · rename_i m2 rest hw
    simp only [Option.some.injEq] at h
    subst h
    obtain ⟨h0, h1, _⟩ := wait_ready_frame _ _ _ _ _ hw
    have hc : ∀ d : Fin 2, m2.chan d
        = (m.setChan dev
            { m.chan dev with cycles := setBits (m.chan dev).cycles 16 16 (v % 2 ^ 16) }).chan d := by
      intro d
      fin_cases d
      · simpa [Module.chan] using h0
      · simpa [Module.chan] using h1
    refine ⟨rfl, ?_, ?_⟩
    · simp only [chan_emit, hc, chan_setChan]
    · intro other hne
      simp only [chan_emit, hc, chan_setChan_ne _ _ _ _ hne]

/-- Whatever an `activecycles` store returns, it has changed at most the cycle
word of its channel. -/
theorem pwm_activecycles_store_chan (dev : Fin 2) (v size : Nat) (reads : List Nat)
    (m : Module) (r : Int × Module × List Nat)
    (h : pwm_activecycles_store dev (some v) size reads m = some r) :
    r.1 = size ∧
    r.2.1.chan dev
      = { m.chan dev with cycles := setBits (m.chan dev).cycles 0 16 (v % 2 ^ 16) } ∧
    ∀ other, other ≠ dev → r.2.1.chan other = m.chan other := by
  simp only [pwm_activecycles_store] at h
  split at h
  · cases h
  · rename_i m2 rest hw
    simp only [Option.some.injEq] at h
    subst h
    obtain ⟨h0, h1, _⟩ := wait_ready_frame _ _ _ _ _ hw
    have hc : ∀ d : Fin 2, m2.chan d
        = (m.setChan dev
            { m.chan dev with cycles := setBits (m.chan dev).cycles 0 16 (v % 2 ^ 16) }).chan d := by
      intro d
      fin_cases d
      · simpa [Module.chan] using h0
      · simpa [Module.chan] using h1
    refine ⟨rfl, ?_, ?_⟩
    · simp only [chan_emit, hc, chan_setChan]
    · intro other hne
      simp only [chan_emit, hc, chan_setChan_ne _ _ _ _ hne]

/-- The cycle word after a store of the entire cycles. -/
theorem setBits_entire (c v : Nat) (hc : c < 2 ^ 32) :
    setBits c 16 16 v = getBits c 0 16 + 65536 * (v % 65536) := by
  unfold setBits getBits
  norm_num
  have : c / 4294967296 = 0 := Nat.div_eq_of_lt (by norm_num at hc; exact hc)
  omega

/-- The cycle word after a store of the active cycles. -/
theorem setBits_active (c v : Nat) (hc : c < 2 ^ 32) :
    setBits c 0 16 v = v % 65536 + 65536 * getBits c 16 16 := by
  unfold setBits getBits
  norm_num at hc ⊢
  omega

/-! ## The end-to-end scenario -/

/-- On channel 0 store 99 entire cycles, then 50 active cycles, both pollings
ending, and read freqperiod: both stores are accepted and the text is that of
`24000000 / d / 100`, for `d` the table entry of the channel's prescale code. -/
theorem cycles_then_freqperiod (m : Module) (size1 size2 : Nat) (busy1 busy2 : List Nat)
    (clear1 clear2 d : Nat) (hch : m.channel0.channel = 0)
    (hb1 : ∀ x ∈ busy1, getBits x 28 1 = 1) (hc1 : getBits clear1 28 1 = 0)
    (hb2 : ∀ x ∈ busy2, getBits x 28 1 = 1) (hc2 : getBits clear2 28 1 = 0)
    (hd : clock_divider[m.channel0.prescale]? = some d) (h0 : d ≠ 0) :
    ((pwm_entirecycles_store 0 (some 99) size1 (busy1 ++ [clear1]) m).bind fun r1 =>
      (pwm_activecycles_store 0 (some 50) size2 (busy2 ++ [clear2]) r1.2.1).bind fun r2 =>
        (pwm_freqperiod_show r2.2.1 0).map fun text => (r1.1, r2.1, text))
      = some ((size1 : Int), (size2 : Int), toString (24000000 / d / 100) ++ "hz\n") := by
  have hm0 : m.chan 0 = m.channel0 := rfl
  have hrdy : ∀ x, rdy 0 x = getBits x 28 1 := fun x => by simp [rdy]
  have hr1 : ∀ x ∈ busy1, rdy (m.chan 0).channel x ≠ 0 := by
    intro x hx
    rw [hm0, hch, hrdy, hb1 x hx]
    decide
  have hr1c : rdy (m.chan 0).channel clear1 = 0 := by rw [hm0, hch, hrdy, hc1]
  obtain ⟨r1, h1⟩ : ∃ r, pwm_entirecycles_store 0 (some 99) size1 (busy1 ++ [clear1]) m
      = some r := ⟨_, pwm_entirecycles_store_ready 0 99 size1 busy1 clear1 [] m hr1 hr1c⟩
  obtain ⟨p1, q1, _⟩ := pwm_entirecycles_store_chan 0 99 size1 _ m r1 h1
  have hch1 : (r1.2.1.chan 0).channel = 0 := by rw [q1, hm0]; exact hch
  have hr2 : ∀ x ∈ busy2, rdy (r1.2.1.chan 0).channel x ≠ 0 := by
    intro x hx
    rw [hch1, hrdy, hb2 x hx]
    decide
  have hr2c : rdy (r1.2.1.chan 0).channel clear2 = 0 := by rw [hch1, hrdy, hc2]
  obtain ⟨r2, h2⟩ : ∃ r, pwm_activecycles_store 0 (some 50) size2 (busy2 ++ [clear2]) r1.2.1
      = some r := ⟨_, pwm_activecycles_store_ready 0 50 size2 busy2 clear2 [] r1.2.1 hr2 hr2c⟩
  obtain ⟨p2, q2, _⟩ := pwm_activecycles_store_chan 0 50 size2 _ r1.2.1 r2 h2
  have hpre : (r2.2.1.chan 0).prescale = m.channel0.prescale := by rw [q2, q1, hm0]
  have hent : (r2.2.1.chan 0).entire_cycles = 99 := by
    rw [q2, q1]
    show getBits (setBits (setBits _ 16 16 (99 % 2 ^ 16)) 0 16 (50 % 2 ^ 16)) 16 16 = 99
    rw [getBits_setBits_above _ _ _ _ _ _ (by norm_num), getBits_setBits_same]
    norm_num
  have hf := pwm_freq_of_divider (r2.2.1.chan 0) d (hpre ▸ hd) h0
  rw [hent] at hf
  simp only [h1, h2, Option.some_bind, pwm_freqperiod_show, hf, Option.map_some', p1, p2]

/-- C11, as stated, fails: in the state `opi0_init` leaves, the prescale code
of channel 0 is 0 (divide by 120), and storing 99 entire cycles and then 50
active cycles on channel 0 makes freqperiod read `2000hz`. -/
theorem C11_fresh_state_reports_2000 :
    pwm_prescale_show (opi0_init 0 0) 0 = "0\n" ∧
    clock_divider[0]? = some 120 ∧
    ((pwm_entirecycles_store 0 (some 99) 3 [0] (opi0_init 0 0)).bind fun r1 =>
      (pwm_activecycles_store 0 (some 50) 3 [0] r1.2.1).bind fun r2 =>
        (pwm_freqperiod_show r2.2.1 0).map fun text => (r1.1, r2.1, text))
      = some ((3 : Int), (3 : Int), "2000hz\n") := by
  decide

/-- C11, amended: from the state `opi0_init` leaves, storing 99 entire cycles
and then 50 active cycles on channel 0 (each polling ending on a clear answer)
makes freqperiod on channel 0 read `2000hz`, the prescale code being 0; when an
accepted run write on channel 0 has first put the code at 2 (divide by 240),
the same two stores make it read `1000hz`. -/
theorem C11_cycles_then_freqperiod (pa_cfg0 pa_pull0 size1 size2 : Nat)
    (busy1 busy2 : List Nat) (clear1 clear2 : Nat)
    (hb1 : ∀ x ∈ busy1, getBits x 28 1 = 1) (hc1 : getBits clear1 28 1 = 0)
    (hb2 : ∀ x ∈ busy2, getBits x 28 1 = 1) (hc2 : getBits clear2 28 1 = 0) :
    ((pwm_entirecycles_store 0 (some 99) size1 (busy1 ++ [clear1])
        (opi0_init pa_cfg0 pa_pull0)).bind fun r1 =>
      (pwm_activecycles_store 0 (some 50) size2 (busy2 ++ [clear2]) r1.2.1).bind fun r2 =>
        (pwm_freqperiod_show r2.2.1 0).map fun text => (r1.1, r2.1, text))
      = some ((size1 : Int), (size2 : Int), "2000hz\n") ∧
    ∀ (enable : Int) (size0 stack : Nat), enable < 2 →
      (pwm_run_store 0 (some enable) size0 stack (opi0_init pa_cfg0 pa_pull0)).1 = size0 ∧
      ((pwm_entirecycles_store 0 (some 99) size1 (busy1 ++ [clear1])
          (pwm_run_store 0 (some enable) size0 stack (opi0_init pa_cfg0 pa_pull0)).2).bind
        fun r1 =>
        (pwm_activecycles_store 0 (some 50) size2 (busy2 ++ [clear2]) r1.2.1).bind fun r2 =>
          (pwm_freqperiod_show r2.2.1 0).map fun text => (r1.1, r2.1, text))
        = some ((size1 : Int), (size2 : Int), "1000hz\n") := by
  constructor
  · exact cycles_then_freqperiod (opi0_init pa_cfg0 pa_pull0) size1 size2 busy1 busy2
      clear1 clear2 120 rfl hb1 hc1 hb2 hc2 rfl (by decide)
  · intro enable size0 stack he
    have hrun : pwm_run_store 0 (some enable) size0 stack (opi0_init pa_cfg0 pa_pull0)
        = ((size0 : Int),
            (pwm_enable (enable % 2 ^ 32).toNat 0 stack (opi0_init pa_cfg0 pa_pull0)).2) := by
      simp [pwm_run_store, he, pwm_enable]
    rw [hrun]
    refine ⟨rfl, ?_⟩
    exact cycles_then_freqperiod _ size1 size2 busy1 busy2 clear1 clear2 240 rfl
      hb1 hc1 hb2 hc2 rfl (by decide)

/-- Witness of the amended C11: one busy answer before each clear one, and a
run write of 1 for the second part. -/
theorem C11_cycles_then_freqperiod_witness :
    ((pwm_entirecycles_store 0 (some 99) 3 ([0x10000000] ++ [0])
        (pwm_run_store 0 (some 1) 2 0 (opi0_init 0 0)).2).bind fun r1 =>
      (pwm_activecycles_store 0 (some 50) 3 ([0x10000000] ++ [0x20000000]) r1.2.1).bind
        fun r2 => (pwm_freqperiod_show r2.2.1 0).map fun text => (r1.1, r2.1, text))
      = some ((3 : Int), (3 : Int), "1000hz\n") :=
  ((C11_cycles_then_freqperiod 0 0 3 3 [0x10000000] [0x10000000] 0 0x20000000
    (by decide) (by decide) (by decide) (by decide)).2 1 2 0 (by decide)).2

/-- C12, as stated, fails: the word `0x400` has only bit 10 set, a bit of
`unused1`; every field read from it is 0, and packing those fields (the local
of `update_ctrl_reg` holding 0) gives the word 0, which differs from `0x400` in
bit 10, a bit other than 28 and 29. -/
theorem C12_padding_bit_not_carried :
    h2plus_pwm_ctrl_u 0x400 = { h2plus_pwm_ctrl_u 0 with unused1 := 1 } ∧
    ctrl_image 0 (channel0_of_ctrl (h2plus_pwm_ctrl_u 0x400))
      (channel1_of_ctrl (h2plus_pwm_ctrl_u 0x400)) = 0 ∧
    getBits 0x400 10 1 = 1 ∧
    getBits (ctrl_image 0 (channel0_of_ctrl (h2plus_pwm_ctrl_u 0x400))
      (channel1_of_ctrl (h2plus_pwm_ctrl_u 0x400))) 10 1 = 0 := by
  decide

/-- C12, amended: for every word `x`, reading the two channels' bit-fields of
`struct h2plus_pwm_ctrl` from `x` and packing them again with `update_ctrl_reg`
gives a word that agrees with `x` on the twenty bits of the two channel fields,
bits 0..9 and 15..24; and for every pair of channels whose control fields fit
their bit-fields, reading the word `update_ctrl_reg` writes for them gives back
each field of both channels.  `pwm_hardware_show`, which reads the control
register through the same bit-fields (it reports all of them but the two pulse
start bits), then reports the prescale codes of the two channels and changes
neither channel. -/
theorem C12_pack_unpack_fields (x stack : Nat) (ch0 ch1 : pwm_channel)
    (h0 : ch0.Fits) (h1 : ch1.Fits) :
    getBits (ctrl_image stack (channel0_of_ctrl (h2plus_pwm_ctrl_u x))
      (channel1_of_ctrl (h2plus_pwm_ctrl_u x))) 0 10 = getBits x 0 10 ∧
    getBits (ctrl_image stack (channel0_of_ctrl (h2plus_pwm_ctrl_u x))
      (channel1_of_ctrl (h2plus_pwm_ctrl_u x))) 15 10 = getBits x 15 10 ∧
    (h2plus_pwm_ctrl_u (ctrl_image stack ch0 ch1)).pwm_ch0_prescal = ch0.prescale ∧
    (h2plus_pwm_ctrl_u (ctrl_image stack ch0 ch1)).pwm_ch0_en = ch0.enable ∧
    (h2plus_pwm_ctrl_u (ctrl_image stack ch0 ch1)).pwm_ch0_act_sta = ch0.polarity ∧
    (h2plus_pwm_ctrl_u (ctrl_image stack ch0 ch1)).sclk_ch0_gating = ch0.gating ∧
    (h2plus_pwm_ctrl_u (ctrl_image stack ch0 ch1)).pwm_ch0_mode = ch0.mode ∧
    (h2plus_pwm_ctrl_u (ctrl_image stack ch0 ch1)).pwm_ch0_pul_start = ch0.pulse_start ∧
    (h2plus_pwm_ctrl_u (ctrl_image stack ch0 ch1)).pwm0_bypass = ch0.bypass ∧
    (h2plus_pwm_ctrl_u (ctrl_image stack ch0 ch1)).pwm_ch1_prescal = ch1.prescale ∧
    (h2plus_pwm_ctrl_u (ctrl_image stack ch0 ch1)).pwm_ch1_en = ch1.enable ∧
    (h2plus_pwm_ctrl_u (ctrl_image stack ch0 ch1)).pwm_ch1_act_sta = ch1.polarity ∧
    (h2plus_pwm_ctrl_u (ctrl_image stack ch0 ch1)).sclk_ch1_gating = ch1.gating ∧
    (h2plus_pwm_ctrl_u (ctrl_image stack ch0 ch1)).pwm_ch1_mode = ch1.mode ∧
    (h2plus_pwm_ctrl_u (ctrl_image stack ch0 ch1)).pwm_ch1_pul_start = ch1.pulse_start ∧
    (h2plus_pwm_ctrl_u (ctrl_image stack ch0 ch1)).pwm1_bypass = ch1.bypass ∧
    ∀ (pa_cfg0 period0 period1 : Nat) (m : Module),
      (pwm_hardware_show pa_cfg0 (ctrl_image stack ch0 ch1) period0 period1 m).1.pwm_ch0_prescal
        = ch0.prescale ∧
      (pwm_hardware_show pa_cfg0 (ctrl_image stack ch0 ch1) period0 period1 m).1.pwm_ch1_prescal
        = ch1.prescale ∧
      (pwm_hardware_show pa_cfg0 (ctrl_image stack ch0 ch1) period0 period1 m).2.channel0
        = m.channel0 ∧
      (pwm_hardware_show pa_cfg0 (ctrl_image stack ch0 ch1) period0 period1 m).2.channel1
        = m.channel1 := by
  obtain ⟨a1, a2, a3, a4, a5, a6, a7⟩ := ctrl_image_ch0 stack ch0 ch1
  obtain ⟨b1, b2, b3, b4, b5, b6, b7⟩ := ctrl_image_ch1 stack ch0 ch1
  obtain ⟨f1, f2, f3, f4, f5, f6, f7⟩ := h0
  obtain ⟨g1, g2, g3, g4, g5, g6, g7⟩ := h1
  have e4 : ∀ p, getBits x p 4 % 16 = getBits x p 4 := fun p =>
    Nat.mod_eq_of_lt (getBits_lt x p 4)
  have e1 : ∀ p, getBits x p 1 % 2 = getBits x p 1 := fun p =>
    Nat.mod_eq_of_lt (getBits_lt x p 1)
  have hx0 := getBits_ten x 0
  have hx1 := getBits_ten x 15
  norm_num at hx0 hx1
  refine ⟨?_, ?_, ?_, ?_, ?_, ?_, ?_, ?_, ?_, ?_, ?_, ?_, ?_, ?_, ?_, ?_, ?_⟩
  · rw [ctrl_image_field0, hx0]
    simp only [channel0_of_ctrl, h2plus_pwm_ctrl_u, e4, e1]
  · rw [ctrl_image_field1, hx1]
    simp only [channel1_of_ctrl, h2plus_pwm_ctrl_u, e4, e1]
  · exact a1.trans (Nat.mod_eq_of_lt f1)
  · exact a2.trans (Nat.mod_eq_of_lt f2)
  · exact a3.trans (Nat.mod_eq_of_lt f3)
  · exact a4.trans (Nat.mod_eq_of_lt f4)
  · exact a5.trans (Nat.mod_eq_of_lt f5)
  · exact a6.trans (Nat.mod_eq_of_lt f6)
  · exact a7.trans (Nat.mod_eq_of_lt f7)
  · exact b1.trans (Nat.mod_eq_of_lt g1)
  · exact b2.trans (Nat.mod_eq_of_lt g2)
  · exact b3.trans (Nat.mod_eq_of_lt g3)
  · exact b4.trans (Nat.mod_eq_of_lt g4)
  · exact b5.trans (Nat.mod_eq_of_lt g5)
  · exact b6.trans (Nat.mod_eq_of_lt g6)
  · exact b7.trans (Nat.mod_eq_of_lt g7)
  · intro pa_cfg0 period0 period1 m
    have hw : getBits (ctrl_image stack ch0 ch1 % 4294967296) 0 4 = ch0.prescale :=
      (getBits_mod_word _ 0 4 (by norm_num)).trans (a1.trans (Nat.mod_eq_of_lt f1))
    have hw1 : getBits (ctrl_image stack ch0 ch1 % 4294967296) 15 4 = ch1.prescale :=
      (getBits_mod_word _ 15 4 (by norm_num)).trans (b1.trans (Nat.mod_eq_of_lt g1))
    refine ⟨?_, ?_, rfl, rfl⟩
    · simpa [pwm_hardware_show, h2plus_pwm_ctrl_u] using hw
    · simpa [pwm_hardware_show, h2plus_pwm_ctrl_u] using hw1

/-- Witness of the amended C12: the word `0x1ffffff` and the channels a run
write of 1 leaves. -/
theorem C12_pack_unpack_fields_witness :
    getBits (ctrl_image 7 (channel0_of_ctrl (h2plus_pwm_ctrl_u 0x1ffffff))
      (channel1_of_ctrl (h2plus_pwm_ctrl_u 0x1ffffff))) 0 10 = getBits 0x1ffffff 0 10 :=
  (C12_pack_unpack_fields 0x1ffffff 7
    (pwm_run_store 0 (some 1) 2 0 (opi0_init 0 0)).2.channel0
    (pwm_run_store 0 (some 1) 2 0 (opi0_init 0 0)).2.channel1 (by decide) (by decide)).1

/-- C13: for a channel whose cycle word is a 32-bit word and every 16-bit `v`,
when polling ends the one write an `entirecycles` store issues goes to the
channel's period register with the value `active_cycles + 65536 * v`, and the
one write an `activecycles` store issues has the value
`v + 65536 * entire_cycles`, the other count being the channel's value before
the store; afterwards the stored count is `v` and the other count is as it
was. -/
theorem C13_period_register_value (dev : Fin 2) (v size : Nat) (busy : List Nat)
    (clear : Nat) (rest : List Nat) (m : Module)
    (hm : m.Mapped) (hc : (m.chan dev).cycles < 2 ^ 32) (hv : v < 65536)
    (hbusy : ∀ x ∈ busy, getBits x (28 + dev.val) 1 = 1)
    (hclear : getBits clear (28 + dev.val) 1 = 0) :
    (pwm_entirecycles_store dev (some v) size (busy ++ clear :: rest) m).map
        (fun r => (r.1, r.2.1.trace, (r.2.1.chan dev).active_cycles,
          (r.2.1.chan dev).entire_cycles))
      = some ((size : Int),
          m.trace ++ busy.map (.ioread32 PWM_CTRL_REG)
            ++ [.ioread32 PWM_CTRL_REG clear,
                .iowrite32 ((m.chan dev).active_cycles + 65536 * v) (period_reg dev)],
          (m.chan dev).active_cycles, v) ∧
    (pwm_activecycles_store dev (some v) size (busy ++ clear :: rest) m).map
        (fun r => (r.1, r.2.1.trace, (r.2.1.chan dev).active_cycles,
          (r.2.1.chan dev).entire_cycles))
      = some ((size : Int),
          m.trace ++ busy.map (.ioread32 PWM_CTRL_REG)
            ++ [.ioread32 PWM_CTRL_REG clear,
                .iowrite32 (v + 65536 * (m.chan dev).entire_cycles) (period_reg dev)],
          v, (m.chan dev).entire_cycles) := by
  obtain ⟨hch, ha⟩ := mapped_chan m hm dev
  have hb : ∀ x ∈ busy, rdy (m.chan dev).channel x ≠ 0 := by
    intro x hx
    rw [hch, rdy_eq, hbusy x hx]
    decide
  have hr : rdy (m.chan dev).channel clear = 0 := by rw [hch, rdy_eq, hclear]
  have hv16 : v % 2 ^ 16 = v := Nat.mod_eq_of_lt (by norm_num; exact hv)
  have hv' : v % 65536 = v := Nat.mod_eq_of_lt hv
  constructor
  · rw [pwm_entirecycles_store_ready dev v size busy clear rest m hb hr]
    have hw := setBits_entire (m.chan dev).cycles v hc
    rw [hv'] at hw
    simp only [Option.map_some', chan_with_trace, chan_setChan, pwm_channel.active_cycles,
      pwm_channel.entire_cycles, hv16, ha, hw.symm]
    rw [getBits_setBits_below _ _ _ _ _ _ (by norm_num), getBits_setBits_same, hv16]
  · rw [pwm_activecycles_store_ready dev v size busy clear rest m hb hr]
    have hw := setBits_active (m.chan dev).cycles v hc
    rw [hv'] at hw
    simp only [Option.map_some', chan_with_trace, chan_setChan, pwm_channel.active_cycles,
      pwm_channel.entire_cycles, hv16, ha, hw.symm]
    rw [getBits_setBits_same, getBits_setBits_above _ 0 16 _ 16 16 (by norm_num), hv16]

/-- Witness of C13: channel 1 holding 50 active cycles stores 99 entire
cycles; the period register receives `0x00630032`. -/
theorem C13_period_register_value_witness :
    (pwm_entirecycles_store 1 (some 99) 3 ([0x20000000] ++ 0 :: [])
        { opi0_init 0 0 with channel1 := { (opi0_init 0 0).channel1 with cycles := 50 } }).map
        (fun r => (r.1, r.2.1.trace, (r.2.1.chan 1).active_cycles,
          (r.2.1.chan 1).entire_cycles))
      = some ((3 : Int),
          (opi0_init 0 0).trace ++ [.ioread32 PWM_CTRL_REG 0x20000000,
            .ioread32 PWM_CTRL_REG 0, .iowrite32 0x00630032 PWM_CH1_PERIOD],
          50, 99) :=
  (C13_period_register_value 1 99 3 [0x20000000] 0 []
    { opi0_init 0 0 with channel1 := { (opi0_init 0 0).channel1 with cycles := 50 } }
    (by decide) (by decide) (by decide) (by decide) (by decide)).1

/-- C14: an accepted polarity, prescale, entirecycles or activecycles store on
channel `dev` changes its own field of that channel and nothing else of either
channel.  The polarity store (scanned byte `v % 256`) stores 1 when the byte is
not zero and 0 when it is; the prescale store of `v ≤ 15` stores `v`; the
entirecycles store replaces the entire cycles in the cycle word and keeps the
active cycles; the activecycles store replaces the active cycles and keeps the
entire cycles.  The enable field, every other field of the channel and the
whole other channel are as before. -/
theorem C14_setters_change_own_field (dev other : Fin 2) (hne : other ≠ dev)
    (v size stack : Nat) (m : Module) :
    ((pwm_polarity_store dev (some v) size stack m).1 = size ∧
      (pwm_polarity_store dev (some v) size stack m).2.chan dev
        = { m.chan dev with polarity := if v % 256 = 0 then 0 else 1 } ∧
      (pwm_polarity_store dev (some v) size stack m).2.chan other = m.chan other) ∧
    (v ≤ 15 →
      (pwm_prescale_store dev (some v) size stack m).1 = size ∧
      (pwm_prescale_store dev (some v) size stack m).2.chan dev
        = { m.chan dev with prescale := v } ∧
      (pwm_prescale_store dev (some v) size stack m).2.chan other = m.chan other) ∧
    (∀ reads r, pwm_entirecycles_store dev (some v) size reads m = some r →
      r.1 = size ∧
      r.2.1.chan dev
        = { m.chan dev with cycles := setBits (m.chan dev).cycles 16 16 (v % 2 ^ 16) } ∧
      (r.2.1.chan dev).entire_cycles = v % 65536 ∧
      (r.2.1.chan dev).active_cycles = (m.chan dev).active_cycles ∧
      r.2.1.chan other = m.chan other) ∧
    (∀ reads r, pwm_activecycles_store dev (some v) size reads m = some r →
      r.1 = size ∧
      r.2.1.chan dev
        = { m.chan dev with cycles := setBits (m.chan dev).cycles 0 16 (v % 2 ^ 16) } ∧
      (r.2.1.chan dev).active_cycles = v % 65536 ∧
      (r.2.1.chan dev).entire_cycles = (m.chan dev).entire_cycles ∧
      r.2.1.chan other = m.chan other) := by
  refine ⟨⟨rfl, ?_, ?_⟩, ?_, ?_, ?_⟩
  · simp only [pwm_polarity_store, chan_update_ctrl_reg, chan_setChan]
    by_cases h : v % 256 = 0
    · simp [h]
    · have hpos : v % 256 > 0 := Nat.pos_of_ne_zero h
      simp [h, hpos]
  · simp only [pwm_polarity_store, chan_update_ctrl_reg, chan_setChan_ne _ _ _ _ hne]
  · intro hv
    rw [pwm_prescale_store_accept dev v size stack m hv]
    exact ⟨rfl, by simp only [chan_update_ctrl_reg, chan_setChan],
      by simp only [chan_update_ctrl_reg, chan_setChan_ne _ _ _ _ hne]⟩
  · intro reads r h
    obtain ⟨h1, h2, h3⟩ := pwm_entirecycles_store_chan dev v size reads m r h
    refine ⟨h1, h2, ?_, ?_, h3 other hne⟩
    · rw [h2]
      show getBits (setBits _ 16 16 (v % 2 ^ 16)) 16 16 = v % 65536
      rw [getBits_setBits_same]
      norm_num
    · rw [h2]
      show getBits (setBits _ 16 16 (v % 2 ^ 16)) 0 16 = getBits _ 0 16
      rw [getBits_setBits_below _ _ _ _ _ _ (by norm_num)]
  · intro reads r h
    obtain ⟨h1, h2, h3⟩ := pwm_activecycles_store_chan dev v size reads m r h
    refine ⟨h1, h2, ?_, ?_, h3 other hne⟩
    · rw [h2]
      show getBits (setBits _ 0 16 (v % 2 ^ 16)) 0 16 = v % 65536
      rw [getBits_setBits_same]
      norm_num
    · rw [h2]
      show getBits (setBits _ 0 16 (v % 2 ^ 16)) 16 16 = getBits _ 16 16
      rw [getBits_setBits_above _ _ _ _ _ _ (by norm_num)]

/-- Witness of C14: after a run write of 1 on both channels, an accepted
prescale store of 15 on channel 0 leaves channel 1 as it was. -/
theorem C14_setters_change_own_field_witness :
    (pwm_prescale_store 0 (some 15) 3 0
        (pwm_run_store 1 (some 1) 2 0 (pwm_run_store 0 (some 1) 2 0 (opi0_init 0 0)).2).2).2.chan 1
      = (pwm_run_store 1 (some 1) 2 0 (pwm_run_store 0 (some 1) 2 0 (opi0_init 0 0)).2).2.chan 1 :=
  ((C14_setters_change_own_field 0 1 (by decide) 15 3 0
    (pwm_run_store 1 (some 1) 2 0 (pwm_run_store 0 (some 1) 2 0 (opi0_init 0 0)).2).2).2.1
    (by decide)).2.2

/-! ## Control updates -/

/-- A control update after a change of channel `dev`: one write of the control
register; the ten bits of `dev` hold the changed channel, the ten bits of the
other channel hold that channel as it was, and, in a sound state, are the bits
the latest control word held for it. -/
theorem ctrl_update_frame (stack : Nat) (m : Module) (dev other : Fin 2)
    (c : pwm_channel) (hne : other ≠ dev) (hm : m.Sound) :
    (update_ctrl_reg stack (m.setChan dev c)).2.trace
      = m.trace ++ [.iowrite32
          (ctrl_image stack (update_ctrl_reg stack (m.setChan dev c)).2.channel0
            (update_ctrl_reg stack (m.setChan dev c)).2.channel1) PWM_CTRL_REG] ∧
    getBits (ctrl_image stack (update_ctrl_reg stack (m.setChan dev c)).2.channel0
        (update_ctrl_reg stack (m.setChan dev c)).2.channel1) (15 * dev.val) 10
      = ctrl_field c ∧
    (update_ctrl_reg stack (m.setChan dev c)).2.chan other = m.chan other ∧
    getBits (ctrl_image stack (update_ctrl_reg stack (m.setChan dev c)).2.channel0
        (update_ctrl_reg stack (m.setChan dev c)).2.channel1) (15 * other.val) 10
      = ctrl_field (m.chan other) ∧
    ∀ prev, last_ctrl_write m.trace = some prev →
      getBits (ctrl_image stack (update_ctrl_reg stack (m.setChan dev c)).2.channel0
          (update_ctrl_reg stack (m.setChan dev c)).2.channel1) (15 * other.val) 10
        = getBits prev (15 * other.val) 10 := by
  have hother : (update_ctrl_reg stack (m.setChan dev c)).2.chan other = m.chan other := by
    rw [chan_update_ctrl_reg, chan_setChan_ne _ _ _ _ hne]
  have hdev : (update_ctrl_reg stack (m.setChan dev c)).2.chan dev = c := by
    rw [chan_update_ctrl_reg, chan_setChan]
  have hf := ctrl_image_field stack (update_ctrl_reg stack (m.setChan dev c)).2
  refine ⟨?_, ?_, hother, ?_, ?_⟩
  · rw [trace_update_ctrl_reg, trace_setChan]
    rfl
  · rw [hf dev, hdev]
  · rw [hf other, hother]
  · intro prev hprev
    rw [hf other, hother]
    obtain ⟨h0, h1⟩ := hm.2.2.2 prev hprev
    have g := ctrl_image_field 0 m
    fin_cases other
    · have g0 := g 0
      simp only [Fin.val_zero, Nat.mul_zero] at g0
      simpa [g0] using h0.symm
    · have g1 := g 1
      simp only [Fin.val_one, Nat.mul_one] at g1
      simpa [g1] using h1.symm

/-- An accepted control setter on channel `dev` is a change of that channel
followed by `update_ctrl_reg`. -/
theorem accepted_setter_is_update (m m2 : Module) (dev : Fin 2) (size stack : Nat)
    (hset : (∃ enable, m2 = (pwm_enable enable dev stack m).2) ∨
      (∃ p, pwm_run_store dev p size stack m = ((size : Int), m2)) ∨
      (∃ p, pwm_polarity_store dev p size stack m = ((size : Int), m2)) ∨
      (∃ p, pwm_prescale_store dev p size stack m = ((size : Int), m2))) :
    ∃ c, m2 = (update_ctrl_reg stack (m.setChan dev c)).2 := by
  have hsz := size_ne_einval size
  rcases hset with ⟨e, h⟩ | ⟨p, h⟩ | ⟨p, h⟩ | ⟨p, h⟩
  · exact ⟨_, h⟩
  · cases p with
    | none =>
      simp only [pwm_run_store, Prod.mk.injEq] at h
      exact absurd h.1.symm hsz
    | some e =>
      by_cases he : e < 2
      · simp only [pwm_run_store, he, if_true, pwm_enable, Prod.mk.injEq] at h
        simp only [ne_eq, one_ne_zero, not_false_eq_true, if_true, Prod.mk.injEq] at h
        exact ⟨_, h.2.symm⟩
      · simp only [pwm_run_store, he, if_false, Prod.mk.injEq] at h
        exact absurd h.1.symm hsz
  · cases p with
    | none =>
      simp only [pwm_polarity_store, Prod.mk.injEq] at h
      exact absurd h.1.symm hsz
    | some v =>
      simp only [pwm_polarity_store, Prod.mk.injEq] at h
      exact ⟨_, h.2.symm⟩
  · cases p with
    | none =>
      simp only [pwm_prescale_store, Prod.mk.injEq] at h
      exact absurd h.1.symm hsz
    | some v =>
      by_cases hv : v % 2 ^ 8 ≥ PRESCALE_DIV120 ∧ v % 2 ^ 8 ≤ PRESCALE_DIV_NO
      · simp only [pwm_prescale_store, hv, and_self, if_true, Prod.mk.injEq] at h
        exact ⟨_, h.2.symm⟩
      · simp only [pwm_prescale_store, hv, if_false, Prod.mk.injEq] at h
        exact absurd h.1.symm hsz

/-- C15: in every reachable state, an accepted control setter on channel `dev`
(`pwm_enable`, or a run, polarity or prescale store that returns `size`)
issues exactly one write, of the control register, and the word written
encodes both channels: the ten bits of channel `dev` hold its state after the
setter, the other channel is unchanged and its ten bits hold its cached state,
so they equal the same ten bits of the word the previous control update
wrote. -/
theorem C15_ctrl_write_encodes_both (m : Module) (hm : Reachable m) (dev other : Fin 2)
    (hne : other ≠ dev) (size stack : Nat) (m2 : Module)
    (hset : (∃ enable, m2 = (pwm_enable enable dev stack m).2) ∨
      (∃ p, pwm_run_store dev p size stack m = ((size : Int), m2)) ∨
      (∃ p, pwm_polarity_store dev p size stack m = ((size : Int), m2)) ∨
      (∃ p, pwm_prescale_store dev p size stack m = ((size : Int), m2))) :
    m2.trace
      = m.trace ++ [.iowrite32 (ctrl_image stack m2.channel0 m2.channel1) PWM_CTRL_REG] ∧
    getBits (ctrl_image stack m2.channel0 m2.channel1) (15 * dev.val) 10
      = ctrl_field (m2.chan dev) ∧
    m2.chan other = m.chan other ∧
    getBits (ctrl_image stack m2.channel0 m2.channel1) (15 * other.val) 10
      = ctrl_field (m.chan other) ∧
    ∀ prev, last_ctrl_write m.trace = some prev →
      getBits (ctrl_image stack m2.channel0 m2.channel1) (15 * other.val) 10
        = getBits prev (15 * other.val) 10 := by
  obtain ⟨c, rfl⟩ := accepted_setter_is_update m m2 dev size stack hset
  obtain ⟨h1, h2, h3, h4, h5⟩ :=
    ctrl_update_frame stack m dev other c hne (reachable_sound m hm)
  refine ⟨h1, ?_, h3, h4, h5⟩
  rw [h2, chan_update_ctrl_reg, chan_setChan]

/-- Witness of C15: after a run write of 1 on channel 0 (control word `0x72`),
a prescale store of 3 on channel 1 writes a word with the same ten bits for
channel 0. -/
theorem C15_ctrl_write_encodes_both_witness :
    getBits
        (ctrl_image 0
          (pwm_prescale_store 1 (some 3) 2 0
            (pwm_run_store 0 (some 1) 2 0 (opi0_init 0 0)).2).2.channel0
          (pwm_prescale_store 1 (some 3) 2 0
            (pwm_run_store 0 (some 1) 2 0 (opi0_init 0 0)).2).2.channel1)
        (15 * (0 : Fin 2).val) 10
      = getBits 0x72 (15 * (0 : Fin 2).val) 10 :=
  (C15_ctrl_write_encodes_both (pwm_run_store 0 (some 1) 2 0 (opi0_init 0 0)).2
    (Reachable.run _ 0 (some 1) 2 0 (Reachable.init 0 0)) 1 0 (by decide) 2 0
    (pwm_prescale_store 1 (some 3) 2 0 (pwm_run_store 0 (some 1) 2 0 (opi0_init 0 0)).2).2
    (Or.inr (Or.inr (Or.inr ⟨some 3, rfl⟩)))).2.2.2.2 0x72 (by decide)

/-! ## Divisors -/

/-- No entry of the table is zero. -/
theorem clock_divider_ne_zero (code d : Nat) (hd : clock_divider[code]? = some d) :
    d ≠ 0 := by
  intro h
  subst h
  have hmem : 0 ∈ clock_divider := List.getElem?_mem hd
  revert hmem
  decide

/-- Every code below 16 has a table entry. -/
theorem clock_divider_entry (code : Nat) (h : code < 16) :
    ∃ d, clock_divider[code]? = some d := by
  have hlen : code < clock_divider.length := by
    simpa [clock_divider] using h
  exact ⟨clock_divider[code], List.getElem?_eq_getElem hlen⟩

/-- C16: neither division of the frequency computation has a zero divisor.
Every code 0..15 has a table entry and the entry is not zero, the reserved ones
included; the entire-cycles field is at most 65535 and `entire_cycles + 1`,
taken in 32 bits, is that sum and at least 1; so for every code 0..15 and every
channel the computation has a result.  With 65535 entire cycles and code 0 the
result is 3. -/
theorem C16_no_zero_divisor :
    (∀ code : Fin 16, ∃ d, clock_divider[code.val]? = some d ∧ d ≠ 0) ∧
    (∀ chan : pwm_channel,
      chan.entire_cycles ≤ 65535 ∧ 1 ≤ (chan.entire_cycles + 1) % 2 ^ 32 ∧
      (chan.entire_cycles + 1) % 2 ^ 32 = chan.entire_cycles + 1) ∧
    (∀ (code : Fin 16) (chan : pwm_channel), ∃ d,
      clock_divider[code.val]? = some d ∧
      pwm_freq { chan with prescale := code.val }
        = some (24000000 / d / (chan.entire_cycles + 1))) ∧
    ({ zero_channel with cycles := 0xffff0000 } : pwm_channel).entire_cycles = 65535 ∧
    pwm_freq { zero_channel with cycles := 0xffff0000 } = some 3 := by
  refine ⟨?_, ?_, ?_, by decide, by decide⟩
  · intro code
    obtain ⟨d, hd⟩ := clock_divider_entry code.val code.isLt
    exact ⟨d, hd, clock_divider_ne_zero _ _ hd⟩
  · intro chan
    have hlt : chan.entire_cycles < 2 ^ 16 := getBits_lt _ _ _
    have hmod : (chan.entire_cycles + 1) % 2 ^ 32 = chan.entire_cycles + 1 :=
      Nat.mod_eq_of_lt (by omega)
    refine ⟨by omega, ?_, hmod⟩
    rw [hmod]
    omega
  · intro code chan
    obtain ⟨d, hd⟩ := clock_divider_entry code.val code.isLt
    exact ⟨d, hd, pwm_freq_of_divider { chan with prescale := code.val } d hd
      (clock_divider_ne_zero _ _ hd)⟩

/-- C17: `opi0_exit` leaves both channels with enable = 0 and every other field
as it was, and issues exactly one write: of the control register, with a word
whose bits 4 and 19 are 0.  The control register is neither period register,
so no period register is written. -/
theorem C17_exit_disables_both (stack : Nat) (m : Module) :
    (opi0_exit stack m).channel0 = { m.channel0 with enable := 0 } ∧
    (opi0_exit stack m).channel1 = { m.channel1 with enable := 0 } ∧
    (opi0_exit stack m).trace
      = m.trace ++ [.iowrite32
          (ctrl_image stack (opi0_exit stack m).channel0 (opi0_exit stack m).channel1)
          PWM_CTRL_REG] ∧
    getBits (ctrl_image stack (opi0_exit stack m).channel0 (opi0_exit stack m).channel1) 4 1
      = 0 ∧
    getBits (ctrl_image stack (opi0_exit stack m).channel0 (opi0_exit stack m).channel1) 19 1
      = 0 ∧
    PWM_CTRL_REG ≠ PWM_CH0_PERIOD ∧ PWM_CTRL_REG ≠ PWM_CH1_PERIOD := by
  refine ⟨rfl, rfl, rfl, ?_, ?_, by decide, by decide⟩
  · exact (ctrl_image_ch0 stack _ _).2.1
  · exact (ctrl_image_ch1 stack _ _).2.1

/-- C18: in every reachable state each channel's prescale code is below 16: it
indexes the sixteen-entry table, whose entry for it is not zero, so the
frequency computation has a result; and the four bits `update_ctrl_reg` writes
for it are the code itself, uncut. -/
theorem C18_prescale_in_range (m : Module) (hm : Reachable m) (dev : Fin 2)
    (stack : Nat) :
    (m.chan dev).prescale < 16 ∧
    (m.chan dev).prescale < clock_divider.length ∧
    (∃ d, clock_divider[(m.chan dev).prescale]? = some d ∧ d ≠ 0) ∧
    (pwm_freq (m.chan dev)).isSome = true ∧
    getBits (ctrl_image stack m.channel0 m.channel1) (15 * dev.val) 4
      = (m.chan dev).prescale := by
  obtain ⟨_, hp0, hp1, _⟩ := reachable_sound m hm
  have hp : (m.chan dev).prescale < 16 := by
    fin_cases dev
    · exact hp0
    · exact hp1
  obtain ⟨d, hd⟩ := clock_divider_entry _ hp
  have h0 := clock_divider_ne_zero _ _ hd
  refine ⟨hp, by simpa [clock_divider] using hp, ⟨d, hd, h0⟩, ?_, ?_⟩
  · rw [pwm_freq_of_divider _ d hd h0]
    rfl
  · have hmod : (m.chan dev).prescale % 16 = (m.chan dev).prescale := Nat.mod_eq_of_lt hp
    fin_cases dev
    · simpa [Module.chan] using
        (ctrl_image_ch0 stack m.channel0 m.channel1).1.trans (by simpa [Module.chan] using hmod)
    · simpa [Module.chan] using
        (ctrl_image_ch1 stack m.channel0 m.channel1).1.trans (by simpa [Module.chan] using hmod)

/-- Witness of C18: channel 1 after an accepted prescale store of 15. -/
theorem C18_prescale_in_range_witness :
    ((pwm_prescale_store 1 (some 15) 3 0 (opi0_init 0 0)).2.chan 1).prescale < 16 :=
  (C18_prescale_in_range (pwm_prescale_store 1 (some 15) 3 0 (opi0_init 0 0)).2
    (Reachable.prescale _ 1 (some 15) 3 0 (Reachable.init 0 0)) 1 0).1

/-- C19: for a channel whose prescale code is one of 0..4, 8..12, 15, with
table entry `d`, and whose entire-cycles field holds `t`, the value the
frequency query reports, `24000000 / d / (t + 1)`, equals the single
truncating division `24000000 / (d * (t + 1))`, which is the floor of the
rational `24000000 / (d * (t + 1))`. -/
theorem C19_two_divisions_one_floor (m : Module) (dev : Fin 2) (code d t : Nat)
    (hcode : code ∈ [0, 1, 2, 3, 4, 8, 9, 10, 11, 12, 15])
    (hd : clock_divider[code]? = some d)
    (hp : (m.chan dev).prescale = code) (ht : (m.chan dev).entire_cycles = t) :
    d ≠ 4294967295 ∧
    pwm_freq (m.chan dev) = some (24000000 / (d * (t + 1))) ∧
    24000000 / d / (t + 1) = 24000000 / (d * (t + 1)) ∧
    ⌊(24000000 : ℚ) / ((d : ℚ) * ((t : ℚ) + 1))⌋₊ = 24000000 / (d * (t + 1)) := by
  have hres : d ≠ 4294967295 := by
    intro h
    subst h
    simp only [List.mem_cons, List.mem_singleton, List.not_mem_nil, or_false] at hcode
    rcases hcode with h | h | h | h | h | h | h | h | h | h | h <;> subst h <;>
      simp [clock_divider] at hd
  have hf := pwm_freq_of_divider (m.chan dev) d (hp ▸ hd) (clock_divider_ne_zero _ _ hd)
  rw [ht, Nat.div_div_eq_div_mul] at hf
  refine ⟨hres, hf, Nat.div_div_eq_div_mul _ _ _, ?_⟩
  have h : ⌊((24000000 : ℕ) : ℚ) / ((d * (t + 1) : ℕ) : ℚ)⌋₊ = 24000000 / (d * (t + 1)) :=
    Nat.floor_div_eq_div _ _
  push_cast at h
  exact h

/-- Witness of C19: code 3 (divide by 360) with 6 entire cycles: 66666 / 7 and
24000000 / 2520 are both 9523. -/
theorem C19_two_divisions_one_floor_witness :
    pwm_freq
        { (opi0_init 0 0).channel0 with prescale := 3, cycles := 6 * 65536 }
      = some (24000000 / (360 * (6 + 1))) :=
  (C19_two_divisions_one_floor
    { opi0_init 0 0 with
      channel0 := { (opi0_init 0 0).channel0 with prescale := 3, cycles := 6 * 65536 } }
    0 3 360 6 (by decide) (by decide) (by decide) (by decide)).2.1

end PwmSunxi
